import Mathlib

/-!
# Root enumeration of the main heap and call-unit dispatch

A shallow embedding of `MainHeap::collect_roots` (machine/memory/main_heap.cpp)
and of the call-unit executors (machine/builtin/call_unit.cpp).

Conventions of the embedding:

* a pointer is a machine word, modelled as a natural number, and the null
  pointer is `0`;
* the callback handed to `collect_roots` is a function with a private state
  `σ` (the collector it drives); it receives the owner pointer and the object
  and answers with the forwarding address (`0` for "not moved");
* every C++ loop over a container is the combinator `for_each`, which visits
  the elements front to back and threads the callback state through.
-/

namespace rubinius

/-- A machine word holding a pointer; the null pointer is `0`. -/
abbrev Ptr := Nat

namespace memory

/-! ## Data model of the root walk -/

/-- The memory handle reached through `extended_header()->get_handle()`; only
its access counter is read by the walk. -/
structure MemoryHandle where
  accesses : Nat
deriving DecidableEq, Repr

/-- The header state that `collect_roots` reads from an object through the
accessors `reference_p`, `object_p`, `data_p`, `referenced`, `memory_handle_p`
(here: `handle` is present), `finalizer_p` and `weakref_p`. The accessors are
declared in a header outside the translated sources, so their values are inputs
of the model. -/
structure MemoryHeader where
  reference_p : Bool
  object_p : Bool
  data_p : Bool
  referenced : Nat
  handle : Option MemoryHandle
  finalizer_p : Bool
  weakref_p : Bool
deriving DecidableEq, Repr

/-- Accessor `memory_handle_p()`: the object carries a memory handle. -/
def MemoryHeader.memory_handle_p (h : MemoryHeader) : Bool := h.handle.isSome

/-- Modelled from the spec: `MemoryHandle::unset_accesses` (declared outside the
translated sources) resets the access counter of the handle, so that it reads
zero afterwards. -/
def MemoryHandle.unset_accesses (_m : MemoryHandle) : MemoryHandle := { accesses := 0 }

/-- The header of an object after `handle->unset_accesses()` ran on its handle. -/
def MemoryHeader.unset_accesses (h : MemoryHeader) : MemoryHeader :=
  { h with handle := h.handle.map MemoryHandle.unset_accesses }

/-- One `VariableRootBuffer` of the linked chain: its own address (the owner
handed to the callback) and the contents of the variables that `buffer()[0]`,
..., `buffer()[size()-1]` point to. Each buffer entry designates a variable of
its own. -/
structure VariableRootBuffer where
  addr : Ptr
  slots : List Ptr
deriving DecidableEq, Repr

/-- One `RootBuffer`: the address of its array (the owner handed to the
callback) and the `size()` slots of the array. -/
structure RootBuffer where
  buffer : Ptr
  slots : List Ptr
deriving DecidableEq, Repr

/-- The root structures of one `ManagedThread`: the explicit root stack, the
chain of variable root buffers from `front()` to the null `next()`, the root
buffers, and the result of `as_vm()` (`0` when the thread is not a VM). -/
structure ManagedThread where
  roots : List Ptr
  variable_root_buffers : List VariableRootBuffer
  root_buffers : List RootBuffer
  as_vm : Ptr
deriving DecidableEq, Repr

/-- The part of `STATE` that `collect_roots` reads and writes: the global
roots, the thread list of the thread nexus, the handle table
`memory()->references()` and the headers of the objects. -/
structure Heap where
  globals_roots : List Ptr
  threads : List ManagedThread
  references : List Ptr
  headers : Ptr → MemoryHeader

/-- The callback `f` of `collect_roots`: from its state, the owner pointer and
the object it computes the forwarding address (`0`: none) and its next state.
The state `σ` is whatever the callback captures (the collector it drives); the
callback itself writes neither a root slot nor a header, that is left to
`collect_roots`. -/
abbrev Callback (σ : Type) := σ → Ptr → Ptr → Ptr × σ

/-- The hook `vm->gc_scan(immix)` of a VM thread, acting on the collector state. -/
abbrev ScanHook (σ : Type) := Ptr → σ → σ

/-! ## The walk -/

/-- A C++ loop over a container: the body visits the elements front to back,
may replace the visited element, and threads the state. -/
def for_each {α σ : Type} (body : α → σ → α × σ) : List α → σ → List α × σ
  | [], s => ([], s)
  | a :: rest, s =>
    let r := body a s
    let out := for_each body rest r.2
    (r.1 :: out.1, out.2)

/-- Body of a `Roots::Iterator` loop (main_heap.cpp lines 25-29 and 40-44):
`if(Object* fwd = f(state, 0, i->get())) i->set(fwd);`. -/
def root_body {σ : Type} (f : Callback σ) (cur : Ptr) (s : σ) : Ptr × σ :=
  let r := f s 0 cur
  (if r.1 ≠ 0 then r.1 else cur, r.2)

/-- Body of the loop over one variable root buffer (lines 52-65): a null
variable is skipped, a reference is offered with the buffer as owner, anything
else is left alone (the `handle_p` branch is empty). -/
def variable_body {σ : Type} (hd : Ptr → MemoryHeader) (f : Callback σ) (vrb : Ptr)
    (cur : Ptr) (s : σ) : Ptr × σ :=
  if cur = 0 then (cur, s)
  else if (hd cur).reference_p then
    let r := f s vrb cur
    (if r.1 ≠ 0 then r.1 else cur, r.2)
  else (cur, s)

/-- Body of the `while(vrb)` loop (lines 50-69) for one buffer of the chain. -/
def variable_root_buffer_body {σ : Type} (hd : Ptr → MemoryHeader) (f : Callback σ)
    (vrb : VariableRootBuffer) (s : σ) : VariableRootBuffer × σ :=
  let out := for_each (variable_body hd f vrb.addr) vrb.slots s
  ({ vrb with slots := out.1 }, out.2)

/-- Body of the loop over one root buffer (lines 78-88): a reference is
offered with the array as owner, anything else is left alone. -/
def buffer_body {σ : Type} (hd : Ptr → MemoryHeader) (f : Callback σ) (buffer : Ptr)
    (cur : Ptr) (s : σ) : Ptr × σ :=
  if (hd cur).reference_p then
    let r := f s buffer cur
    (if r.1 ≠ 0 then r.1 else cur, r.2)
  else (cur, s)

/-- Body of the `RootBuffers::Iterator` loop (lines 73-89) for one buffer. -/
def root_buffer_body {σ : Type} (hd : Ptr → MemoryHeader) (f : Callback σ)
    (b : RootBuffer) (s : σ) : RootBuffer × σ :=
  let out := for_each (buffer_body hd f b.buffer) b.slots s
  ({ b with slots := out.1 }, out.2)

/-- Body of the loop over the thread list (lines 38-95): root stack, chain of
variable root buffers, root buffers, then the `gc_scan` hook of a VM thread. -/
def thread_body {σ : Type} (hd : Ptr → MemoryHeader) (f : Callback σ) (gc_scan : ScanHook σ)
    (thr : ManagedThread) (s : σ) : ManagedThread × σ :=
  let r := for_each (root_body f) thr.roots s
  let v := for_each (variable_root_buffer_body hd f) thr.variable_root_buffers r.2
  let b := for_each (root_buffer_body hd f) thr.root_buffers v.2
  let s' := if thr.as_vm ≠ 0 then gc_scan thr.as_vm b.2 else b.2
  ({ roots := r.1, variable_root_buffers := v.1, root_buffers := b.1, as_vm := thr.as_vm }, s')

/-- The loop over the handle table (lines 99-132). The forwarding address the
callback returns is dropped (the three `TODO: MemoryHeader set new address`
places), so the loop changes no entry; it only resets access counters. -/
def references_loop {σ : Type} (f : Callback σ) :
    List Ptr → (Ptr → MemoryHeader) → σ → (Ptr → MemoryHeader) × σ
  | [], hd, s => (hd, s)
  | obj :: rest, hd, s =>
    if (hd obj).reference_p then
      if (hd obj).object_p then
        if (hd obj).referenced > 0 then
          references_loop f rest hd (f s 0 obj).2
        else
          match (hd obj).handle with
          | some handle =>
            if handle.accesses > 0 then
              references_loop f rest (Function.update hd obj (hd obj).unset_accesses)
                (f s 0 obj).2
            else references_loop f rest hd s
          | none =>
            if !(hd obj).finalizer_p && !(hd obj).weakref_p then
              references_loop f rest hd (f s 0 obj).2
            else references_loop f rest hd s
      else references_loop f rest hd s
    else references_loop f rest hd s

/-- `MainHeap::collect_roots` (lines 24-133): the global roots, then every
thread, then the handle table. -/
def collect_roots {σ : Type} (f : Callback σ) (gc_scan : ScanHook σ) (state : Heap) (s : σ) :
    Heap × σ :=
  let g := for_each (root_body f) state.globals_roots s
  let t := for_each (thread_body state.headers f gc_scan) state.threads g.2
  let h := references_loop f state.references state.headers t.2
  ({ globals_roots := g.1, threads := t.1, references := state.references, headers := h.1 }, h.2)

/-! ## Observing the walk -/

/-- What an observer of one run sees: a call of the callback with its owner,
its object and the address it returned, or a run of a `gc_scan` hook. -/
inductive Event where
  | call (owner : Ptr) (obj : Ptr) (ret : Ptr)
  | gc_scan (vm : Ptr)
deriving DecidableEq, Repr

/-- The callback `f` with every call appended to a log. -/
def logged {σ : Type} (f : Callback σ) : Callback (σ × List Event) :=
  fun st owner obj => ((f st.1 owner obj).1, ((f st.1 owner obj).2,
    st.2 ++ [Event.call owner obj (f st.1 owner obj).1]))

/-- The hook `gc_scan` with every run appended to the same log. -/
def logged_scan {σ : Type} (g : ScanHook σ) : ScanHook (σ × List Event) :=
  fun vm st => (g vm st.1, st.2 ++ [Event.gc_scan vm])

/-- The log of one run of `collect_roots` under the callback `f` and the hook
`g`, started in callback state `s`. -/
def collect_roots_log {σ : Type} (f : Callback σ) (g : ScanHook σ) (state : Heap) (s : σ) :
    List Event :=
  (collect_roots (logged f) (logged_scan g) state (s, [])).2.2

/-! ## Vocabulary of the statements about the walk -/

/-- The three kinds of root slot the walk visits: an entry of a `Roots` list
(the global roots or the root stack of a thread), a variable designated by a
variable root buffer, and a slot of a root buffer. -/
inductive SlotKind where
  | root
  | var
  | buffer
deriving DecidableEq, Repr

/-- What the walk passes by, in visiting order: a root slot (its kind, the
owner pointer that goes with it, its content) or the `gc_scan` hook of a VM
thread. -/
inductive Item where
  | slot (kind : SlotKind) (owner : Ptr) (val : Ptr)
  | hook (vm : Ptr)
deriving DecidableEq, Repr

/-- The slots of one variable root buffer, in index order. -/
def variable_root_buffer_items (b : VariableRootBuffer) : List Item :=
  b.slots.map (Item.slot SlotKind.var b.addr)

/-- The slots of one root buffer, in index order. -/
def root_buffer_items (b : RootBuffer) : List Item :=
  b.slots.map (Item.slot SlotKind.buffer b.buffer)

/-- The items of one thread: root stack, chain of variable root buffers, root
buffers, and the hook when the thread is a VM. -/
def thread_items (t : ManagedThread) : List Item :=
  t.roots.map (Item.slot SlotKind.root 0)
    ++ t.variable_root_buffers.flatMap variable_root_buffer_items
    ++ t.root_buffers.flatMap root_buffer_items
    ++ (if t.as_vm ≠ 0 then [Item.hook t.as_vm] else [])

/-- Every root slot and hook of the heap, in the order `collect_roots` passes
them: the global roots, then thread by thread. -/
def root_items (w : Heap) : List Item :=
  w.globals_roots.map (Item.slot SlotKind.root 0) ++ w.threads.flatMap thread_items

/-- The content of a slot after the callback answered `fwd` for the content
`cur`: the new address when it is non-null, the old content otherwise. -/
def forwarded (fwd cur : Ptr) : Ptr := if fwd ≠ 0 then fwd else cur

/-- `Walk offer_ok skip_ok before after evs`: the events `evs` account for a
walk over the items `before` that left the items `after`, one item at a time:
a hook ran (one `gc_scan` event), or a slot was passed by without a call and
kept its content (allowed when `skip_ok`), or a slot was offered to the
callback in exactly one call, with its owner and its content, and now holds
`forwarded ret content` (allowed when `offer_ok`). -/
inductive Walk (offer_ok skip_ok : SlotKind → Ptr → Prop) :
    List Item → List Item → List Event → Prop where
  | done : Walk offer_ok skip_ok [] [] []
  | hook (vm : Ptr) {before after : List Item} {evs : List Event} :
      Walk offer_ok skip_ok before after evs →
      Walk offer_ok skip_ok (Item.hook vm :: before) (Item.hook vm :: after)
        (Event.gc_scan vm :: evs)
  | skip (k : SlotKind) (o v : Ptr) {before after : List Item} {evs : List Event} :
      skip_ok k v →
      Walk offer_ok skip_ok before after evs →
      Walk offer_ok skip_ok (Item.slot k o v :: before) (Item.slot k o v :: after) evs
  | offer (k : SlotKind) (o v ret : Ptr) {before after : List Item} {evs : List Event} :
      offer_ok k v →
      Walk offer_ok skip_ok before after evs →
      Walk offer_ok skip_ok (Item.slot k o v :: before)
        (Item.slot k o (forwarded ret v) :: after) (Event.call o v ret :: evs)

/-- The guard the source puts before the call of the callback, by kind of slot:
none for a `Roots` entry, non-null and `reference_p` for a variable of a
variable root buffer, `reference_p` for a slot of a root buffer. -/
def offered (hd : Ptr → MemoryHeader) : SlotKind → Ptr → Bool
  | SlotKind.root, _ => true
  | SlotKind.var, cur => decide (cur ≠ 0) && (hd cur).reference_p
  | SlotKind.buffer, cur => (hd cur).reference_p

/-- A walk in which a slot is offered exactly when the guard of the source
holds for it. -/
abbrev ExactWalk (hd : Ptr → MemoryHeader) : List Item → List Item → List Event → Prop :=
  Walk (fun k v => offered hd k v = true) (fun k v => offered hd k v = false)

/-- A step of the walk without the address the callback returned. -/
inductive Visit where
  | call (owner : Ptr) (obj : Ptr)
  | gc_scan (vm : Ptr)
deriving DecidableEq, Repr

/-- The step an event records. -/
def Event.visit : Event → Visit
  | Event.call owner obj _ => Visit.call owner obj
  | Event.gc_scan vm => Visit.gc_scan vm

/-- The steps the spec lists for one thread: its root stack, then its variable
root buffers in link order with the slots in index order, then its root
buffers with the slots in index order, then its `gc_scan` hook (a thread has
one when `as_vm()` is non-null). Of the buffer slots only those that pass the
guard of the source are offered. -/
def thread_visits (hd : Ptr → MemoryHeader) (t : ManagedThread) : List Visit :=
  t.roots.map (Visit.call 0)
    ++ t.variable_root_buffers.flatMap
        (fun b => (b.slots.filter (offered hd SlotKind.var)).map (Visit.call b.addr))
    ++ t.root_buffers.flatMap
        (fun b => (b.slots.filter (offered hd SlotKind.buffer)).map (Visit.call b.buffer))
    ++ (if t.as_vm ≠ 0 then [Visit.gc_scan t.as_vm] else [])

/-- The steps the spec lists before the handle table: the global roots in
iteration order, then the threads in thread-list order. -/
def root_visits (w : Heap) : List Visit :=
  w.globals_roots.map (Visit.call 0) ++ w.threads.flatMap (thread_visits w.headers)

/-- The steps the guard of the source lets one item contribute. -/
def item_visits (hd : Ptr → MemoryHeader) : Item → List Visit
  | Item.slot k o v => if offered hd k v then [Visit.call o v] else []
  | Item.hook vm => [Visit.gc_scan vm]

/-- The state of the callback when `collect_roots` has walked the global roots
and the threads and reaches the handle table. -/
def state_before_references {σ : Type} (f : Callback σ) (g : ScanHook σ) (w : Heap) (s : σ) : σ :=
  (for_each (thread_body w.headers f g) w.threads
    (for_each (root_body f) w.globals_roots s).2).2

/-- The events logged while the global roots and the threads are walked. -/
def root_walk_log {σ : Type} (f : Callback σ) (g : ScanHook σ) (w : Heap) (s : σ) :
    List Event :=
  (state_before_references (logged f) (logged_scan g) w (s, [])).2

/-- The events logged by the handle-table loop. -/
def references_log {σ : Type} (f : Callback σ) (g : ScanHook σ) (w : Heap) (s : σ) :
    List Event :=
  (references_loop (logged f) w.references w.headers (state_before_references f g w s, [])).2.2

/-- The condition under which the handle-table loop offers an object reference
to the callback, read off the `if`/`else if` chain of lines 107-124: a nonzero
reference count, or a memory handle with a nonzero access counter, or no
memory handle and neither the finalizer nor the weak-reference flag. -/
def MemoryHeader.offerable (h : MemoryHeader) : Prop :=
  0 < h.referenced
    ∨ (∃ m, h.handle = some m ∧ 0 < m.accesses)
    ∨ (h.handle = none ∧ h.finalizer_p = false ∧ h.weakref_p = false)

/-- The layout of the root structures of a thread: how many root-stack
entries it has, the address and size of every variable root buffer and of
every root buffer, and its VM pointer. -/
def ManagedThread.layout (t : ManagedThread) : Nat × List (Ptr × Nat) × List (Ptr × Nat) × Ptr :=
  (t.roots.length, t.variable_root_buffers.map (fun b => (b.addr, b.slots.length)),
    t.root_buffers.map (fun b => (b.buffer, b.slots.length)), t.as_vm)

/-- The layout of all root structures of the heap. -/
def Heap.layout (w : Heap) : Nat × List (Nat × List (Ptr × Nat) × List (Ptr × Nat) × Ptr) :=
  (w.globals_roots.length, w.threads.map ManagedThread.layout)

/-- The offering policy of the handle-table loop as a test on the header of an
entry: the entry is a reference and an object, and its reference count is
nonzero, or it carries a memory handle whose access counter is nonzero, or it
carries no handle and is neither a finalizer nor a weak reference. -/
def MemoryHeader.table_offer (h : MemoryHeader) : Bool :=
  h.reference_p && h.object_p &&
    (decide (0 < h.referenced) ||
      match h.handle with
      | some m => decide (0 < m.accesses)
      | none => !h.finalizer_p && !h.weakref_p)

/-- The header of an entry after the handle-table loop offered it: unchanged
when the reference count is nonzero, with the access counter reset otherwise. -/
def MemoryHeader.after_table_offer (h : MemoryHeader) : MemoryHeader :=
  if 0 < h.referenced then h else h.unset_accesses

/-- The steps of the handle-table pass: the entries of the table in table
order, each one offered with a null owner when the policy holds for its header
as the entries before it left it (an entry offered on the strength of its
access counter has the counter reset, so a later occurrence of the same object
is judged on the reset header). -/
def references_visits : List Ptr → (Ptr → MemoryHeader) → List Visit
  | [], _ => []
  | obj :: rest, hd =>
    if (hd obj).table_offer then
      Visit.call 0 obj
        :: references_visits rest (Function.update hd obj (hd obj).after_table_offer)
    else references_visits rest hd

/-- The policy holds for an entry without regard to its access counter: the
entry is a reference and an object, and its reference count is nonzero or it
is a plain reference without a handle. -/
def MemoryHeader.always_offered (h : MemoryHeader) : Prop :=
  h.reference_p = true ∧ h.object_p = true
    ∧ (0 < h.referenced
      ∨ (h.handle = none ∧ h.finalizer_p = false ∧ h.weakref_p = false))

/-! ## Concrete heaps and callbacks -/

/-- A header of a word that is no heap reference (an immediate value). -/
def immediate_header : MemoryHeader :=
  { reference_p := false, object_p := false, data_p := false, referenced := 0,
    handle := none, finalizer_p := false, weakref_p := false }

/-- A header of a plain heap object: a reference, an object, no reference
count, no handle, no flags. -/
def object_header : MemoryHeader :=
  { reference_p := true, object_p := true, data_p := false, referenced := 0,
    handle := none, finalizer_p := false, weakref_p := false }

/-- A header of an object with reference count zero that carries a memory
handle read three times since the last cycle. -/
def accessed_header : MemoryHeader :=
  { reference_p := true, object_p := true, data_p := false, referenced := 0,
    handle := some { accesses := 3 }, finalizer_p := false, weakref_p := false }

/-- The same handle on an object whose reference count is one. -/
def referenced_accessed_header : MemoryHeader :=
  { reference_p := true, object_p := true, data_p := false, referenced := 1,
    handle := some { accesses := 3 }, finalizer_p := false, weakref_p := false }

/-- A header of an object with a finalizer, reference count one and no handle. -/
def referenced_finalizer_header : MemoryHeader :=
  { reference_p := true, object_p := true, data_p := false, referenced := 1,
    handle := none, finalizer_p := true, weakref_p := false }

/-- A header of an object with a finalizer, reference count zero and no
handle. -/
def finalizer_header : MemoryHeader :=
  { reference_p := true, object_p := true, data_p := false, referenced := 0,
    handle := none, finalizer_p := true, weakref_p := false }

/-- A callback without state that reports every object as moved to address 9. -/
def move_to_nine : Callback Unit := fun s _ _ => (9, s)

/-- A callback without state that reports no move. -/
def never_moves : Callback Unit := fun s _ _ => (0, s)

/-- A `gc_scan` hook without effect on the callback state. -/
def no_scan : ScanHook Unit := fun _ s => s

/-- A heap in which the immediate value 7 sits in a global root, in the root
stack of the one thread, in a variable root buffer (address 100) and in a root
buffer (array address 200). -/
def immediate_heap : Heap :=
  { globals_roots := [7],
    threads := [{ roots := [7],
                  variable_root_buffers := [{ addr := 100, slots := [7] }],
                  root_buffers := [{ buffer := 200, slots := [7] }],
                  as_vm := 0 }],
    references := [],
    headers := fun _ => immediate_header }

/-- A heap whose handle table holds the one object 5, reached through no root;
`h` is the header of that object. -/
def handle_heap (h : MemoryHeader) : Heap :=
  { globals_roots := [], threads := [], references := [5],
    headers := fun p => if p = 5 then h else immediate_header }

/-- A heap with the object 5 in a global root, in every root structure of a VM
thread (VM address 300), and in the handle table. -/
def small_heap : Heap :=
  { globals_roots := [5],
    threads := [{ roots := [5],
                  variable_root_buffers := [{ addr := 100, slots := [0, 5, 7] }],
                  root_buffers := [{ buffer := 200, slots := [7, 5] }],
                  as_vm := 300 }],
    references := [5],
    headers := fun p => if p = 5 then object_header else immediate_header }

end memory

namespace memory

/-! ## The end of a collection cycle (`MainHeap::collect_finish`) -/

/-- The two counters of `diagnostics::GCMetrics` that `collect_finish` writes.
They are counters of a machine-word type declared outside the translated
sources and are read here as natural numbers. -/
structure GCMetrics where
  immix_count : Nat
  large_count : Nat
deriving DecidableEq, Repr

/-- The collaborators `collect_finish` calls, all declared outside the
translated sources. Each acts on the state `σ` of the collectors, the code
manager, the symbol table and the mark of the memory; each may read the
metrics but does not write them. -/
structure Collaborators (σ : Type) where
  immix_collect_finish : GCMetrics → σ → σ
  code_manager_sweep : GCMetrics → σ → σ
  immix_sweep : GCMetrics → σ → σ
  mark_sweep_after_marked : GCMetrics → σ → σ
  symbols_sweep : GCMetrics → σ → σ
  rotate_mark : GCMetrics → σ → σ

/-- `MainHeap::collect_finish` (lines 135-149). -/
def collect_finish {σ : Type} (c : Collaborators σ) (s : σ) (metrics : GCMetrics) :
    σ × GCMetrics :=
  let s1 := c.immix_collect_finish metrics s
  let s2 := c.code_manager_sweep metrics s1
  let s3 := c.immix_sweep metrics s2
  let s4 := c.mark_sweep_after_marked metrics s3
  let s5 := c.symbols_sweep metrics s4
  let s6 := c.rotate_mark metrics s5
  let m1 : GCMetrics := { metrics with immix_count := metrics.immix_count + 1 }
  let m2 : GCMetrics := { m1 with large_count := m1.large_count + 1 }
  (s6, m2)

/-- The finishing steps of `n` cycles in a row: `n` calls of `collect_finish`. -/
def finish_cycles {σ : Type} (c : Collaborators σ) : Nat → σ → GCMetrics → σ × GCMetrics
  | 0, s, metrics => (s, metrics)
  | n + 1, s, metrics =>
    let r := collect_finish c s metrics
    finish_cycles c n r.1 r.2

/-- The objects `collect_finish` calls a method of. -/
inductive Receiver where
  | immix
  | code_manager
  | mark_sweep
  | symbols
  | memory
deriving DecidableEq, Repr

/-- The methods `collect_finish` calls, and `sweep` whatever its receiver. -/
inductive Method where
  | collect_finish
  | sweep
  | after_marked
  | rotate_mark
deriving DecidableEq, Repr

/-- What an observer of `collect_finish` sees of one call of a collaborator:
the receiver, the method, and the metrics as they read during the call. -/
structure FinishStep where
  receiver : Receiver
  method : Method
  metrics : GCMetrics
deriving DecidableEq, Repr

/-- A collaborator with its call appended to a log. -/
def logged_step {σ : Type} (receiver : Receiver) (method : Method) (op : GCMetrics → σ → σ) :
    GCMetrics → σ × List FinishStep → σ × List FinishStep :=
  fun metrics st =>
    (op metrics st.1, st.2 ++ [{ receiver := receiver, method := method, metrics := metrics }])

/-- The collaborators with every call appended to a log. -/
def logged_collaborators {σ : Type} (c : Collaborators σ) : Collaborators (σ × List FinishStep) :=
  { immix_collect_finish :=
      logged_step Receiver.immix Method.collect_finish c.immix_collect_finish,
    code_manager_sweep := logged_step Receiver.code_manager Method.sweep c.code_manager_sweep,
    immix_sweep := logged_step Receiver.immix Method.sweep c.immix_sweep,
    mark_sweep_after_marked :=
      logged_step Receiver.mark_sweep Method.after_marked c.mark_sweep_after_marked,
    symbols_sweep := logged_step Receiver.symbols Method.sweep c.symbols_sweep,
    rotate_mark := logged_step Receiver.memory Method.rotate_mark c.rotate_mark }

/-- The log of one call of `collect_finish`. -/
def collect_finish_log {σ : Type} (c : Collaborators σ) (s : σ) (metrics : GCMetrics) :
    List FinishStep :=
  (collect_finish (logged_collaborators c) (s, []) metrics).1.2

/-- Collaborators without effect, on a state without content. -/
def idle_collaborators : Collaborators Unit :=
  { immix_collect_finish := fun _ s => s,
    code_manager_sweep := fun _ s => s,
    immix_sweep := fun _ s => s,
    mark_sweep_after_marked := fun _ s => s,
    symbols_sweep := fun _ s => s,
    rotate_mark := fun _ s => s }

end memory

/-! ## Call units (machine/builtin/call_unit.cpp) -/

/-- The argument set of a call (`Arguments`): the name slot, the receiver and
the argument list; `total()` is the length of the list. -/
structure Arguments where
  name : Ptr
  recv : Ptr
  arguments : List Ptr
deriving DecidableEq, Repr

/-- Accessor `Arguments::total()`. -/
def Arguments.total (args : Arguments) : Nat := args.arguments.length

/-- `Arguments::set_name`. -/
def Arguments.set_name (args : Arguments) (name : Ptr) : Arguments := { args with name := name }

/-- `Arguments::get_argument(which)`: the read `arguments_[which]`, which the
class does not bounds-check. A read outside the array has no defined result
and is `none` here. -/
def Arguments.get_argument (args : Arguments) (which : Int) : Option Ptr :=
  if which < 0 then none else args.arguments[which.toNat]?

/-- The discriminant `CallUnit::Kind`, with the four values the factories set. -/
inductive Kind where
  | eConstantValue
  | eForMethod
  | eTest
  | eKindOf
deriving DecidableEq, Repr

/-- The functions the factories install in the `execute` field of a unit. -/
inductive Executor where
  | constant_value_executor
  | method_executor
  | test_executor
  | kind_of_executor
deriving DecidableEq, Repr

/-- A `CallUnit*`: either no unit (`null`: the null pointer, or a field that was
never set to a unit) or a unit object with its fields `kind`, `value`,
`module`, `executable`, `name`, `which`, the three sub-units of a test unit,
and the installed `execute` function. Units form finite trees. -/
inductive CallUnit where
  | null : CallUnit
  | object (kind : Kind) (value : Ptr) (module : Ptr) (executable : Ptr) (name : Ptr)
      (which : Int) (test_condition : CallUnit) (test_then : CallUnit) (test_else : CallUnit)
      (execute : Executor) : CallUnit
deriving DecidableEq, Repr

/-- Setter `pe->kind(k)`. -/
def CallUnit.set_kind (pe : CallUnit) (k : Kind) : CallUnit :=
  match pe with
  | CallUnit.null => CallUnit.null
  | CallUnit.object _ v m e n w c t el x => CallUnit.object k v m e n w c t el x

/-- Setter `pe->value(state, val)`. -/
def CallUnit.set_value (pe : CallUnit) (val : Ptr) : CallUnit :=
  match pe with
  | CallUnit.null => CallUnit.null
  | CallUnit.object k _ m e n w c t el x => CallUnit.object k val m e n w c t el x

/-- Setter `pe->module(state, mod)`. -/
def CallUnit.set_module (pe : CallUnit) (mod : Ptr) : CallUnit :=
  match pe with
  | CallUnit.null => CallUnit.null
  | CallUnit.object k v _ e n w c t el x => CallUnit.object k v mod e n w c t el x

/-- Setter `pe->executable(state, exec)`. -/
def CallUnit.set_executable (pe : CallUnit) (exec : Ptr) : CallUnit :=
  match pe with
  | CallUnit.null => CallUnit.null
  | CallUnit.object k v m _ n w c t el x => CallUnit.object k v m exec n w c t el x

/-- Setter `pe->name(state, name)`. -/
def CallUnit.set_name (pe : CallUnit) (name : Ptr) : CallUnit :=
  match pe with
  | CallUnit.null => CallUnit.null
  | CallUnit.object k v m e _ w c t el x => CallUnit.object k v m e name w c t el x

/-- Setter `pe->which(i)`. -/
def CallUnit.set_which (pe : CallUnit) (i : Int) : CallUnit :=
  match pe with
  | CallUnit.null => CallUnit.null
  | CallUnit.object k v m e n _ c t el x => CallUnit.object k v m e n i c t el x

/-- Setter `pe->test_condition(state, cond)`. -/
def CallUnit.set_test_condition (pe : CallUnit) (cond : CallUnit) : CallUnit :=
  match pe with
  | CallUnit.null => CallUnit.null
  | CallUnit.object k v m e n w _ t el x => CallUnit.object k v m e n w cond t el x

/-- Setter `pe->test_then(state, c_then)`. -/
def CallUnit.set_test_then (pe : CallUnit) (c_then : CallUnit) : CallUnit :=
  match pe with
  | CallUnit.null => CallUnit.null
  | CallUnit.object k v m e n w c _ el x => CallUnit.object k v m e n w c c_then el x

/-- Setter `pe->test_else(state, c_else)`. -/
def CallUnit.set_test_else (pe : CallUnit) (c_else : CallUnit) : CallUnit :=
  match pe with
  | CallUnit.null => CallUnit.null
  | CallUnit.object k v m e n w c t _ x => CallUnit.object k v m e n w c t c_else x

/-- Assignment `pe->execute = fn`. -/
def CallUnit.set_execute (pe : CallUnit) (fn : Executor) : CallUnit :=
  match pe with
  | CallUnit.null => CallUnit.null
  | CallUnit.object k v m e n w c t el _ => CallUnit.object k v m e n w c t el fn

/-- `CallUnit::create_constant_value` (lines 11-19); `pe` is the object that
`new_object<CallUnit>` returned. -/
def CallUnit.create_constant_value (pe : CallUnit) (val : Ptr) : CallUnit :=
  ((pe.set_kind Kind.eConstantValue).set_value val).set_execute Executor.constant_value_executor

/-- `CallUnit::create_for_method` (lines 21-33). -/
def CallUnit.create_for_method (pe : CallUnit) (mod exec name : Ptr) : CallUnit :=
  ((((pe.set_kind Kind.eForMethod).set_module mod).set_executable exec).set_name name).set_execute
    Executor.method_executor

/-- `CallUnit::create_test` (lines 35-47). -/
def CallUnit.create_test (pe : CallUnit) (cond c_then c_else : CallUnit) : CallUnit :=
  ((((pe.set_kind Kind.eTest).set_test_condition cond).set_test_then c_then).set_test_else
    c_else).set_execute Executor.test_executor

/-- `CallUnit::create_kind_of` (lines 49-58); `which` is the native value of
the Fixnum handed in, stored as it is. -/
def CallUnit.create_kind_of (pe : CallUnit) (mod : Ptr) (which : Int) : CallUnit :=
  (((pe.set_kind Kind.eKindOf).set_value mod).set_which which).set_execute
    Executor.kind_of_executor

/-- What a call of an executor leaves behind: the returned `Object*` (null is
the failure signal), the state of the machine, and the argument set, which is
passed by reference. -/
structure Result (σ : Type) where
  ret : Ptr
  state : σ
  args : Arguments
deriving DecidableEq, Repr

/-- What the executors use of the rest of the machine, all of it declared
outside the translated sources: the constants `cFalse` and `cTrue`, the
truthiness test `CBOOL`, the checked cast `try_as<Module>` (null when the
value is not a module), the instance test `kind_of_p`, and
`Executable::execute` of the executable at an address, which may change the
machine state and the argument set and may fail or fault. -/
structure Runtime (σ : Type) where
  cFalse : Ptr
  cTrue : Ptr
  CBOOL : Ptr → Bool
  try_as_Module : Ptr → Ptr
  kind_of_p : σ → Ptr → Ptr → Bool
  execute : Ptr → σ → Ptr → Ptr → Arguments → Option (Result σ)

/-- The macro `RBOOL`: `cTrue` for true, `cFalse` for false. -/
def Runtime.RBOOL {σ : Type} (rt : Runtime σ) (b : Bool) : Ptr := if b then rt.cTrue else rt.cFalse

/-- `CallUnit::constant_value_executor` (lines 60-64). A result of `none` is a
fault: the unit pointer does not point to a unit. -/
def CallUnit.constant_value_executor {σ : Type} (_rt : Runtime σ) (unit : CallUnit) (s : σ)
    (_exec _mod : Ptr) (args : Arguments) : Option (Result σ) :=
  match unit with
  | CallUnit.null => none
  | CallUnit.object _ value _ _ _ _ _ _ _ _ => some { ret := value, state := s, args := args }

/-- `CallUnit::method_executor` (lines 66-72): the name of the unit is written
to the argument set, then the executable of the unit runs with itself and the
module of the unit. -/
def CallUnit.method_executor {σ : Type} (rt : Runtime σ) (unit : CallUnit) (s : σ)
    (_exec _mod : Ptr) (args : Arguments) : Option (Result σ) :=
  match unit with
  | CallUnit.null => none
  | CallUnit.object _ _ module executable name _ _ _ _ _ =>
    if executable = 0 then none
    else rt.execute executable s executable module (args.set_name name)

/-- Lines 99-103 of `CallUnit::kind_of_executor`: the instance test of the
subject `obj` against the value of the unit. -/
def CallUnit.kind_of_test {σ : Type} (rt : Runtime σ) (value : Ptr) (obj : Ptr) (s : σ) : Ptr :=
  if rt.try_as_Module value ≠ 0 then rt.RBOOL (rt.kind_of_p s obj (rt.try_as_Module value))
  else rt.cFalse

/-- `CallUnit::kind_of_executor` (lines 87-104). The comparison with
`(int)args.total()` is a comparison of integers. A result of `none` is a fault:
no unit, or a read outside the argument array. -/
def CallUnit.kind_of_executor {σ : Type} (rt : Runtime σ) (unit : CallUnit) (s : σ)
    (_exec _mod : Ptr) (args : Arguments) : Option (Result σ) :=
  match unit with
  | CallUnit.null => none
  | CallUnit.object _ value _ _ _ which _ _ _ _ =>
    if which = -1 then
      some { ret := CallUnit.kind_of_test rt value args.recv s, state := s, args := args }
    else if which < (args.total : Int) then
      match args.get_argument which with
      | none => none
      | some obj => some { ret := CallUnit.kind_of_test rt value obj s, state := s, args := args }
    else some { ret := rt.cFalse, state := s, args := args }

/-- The call `unit->execute(state, unit, exec, mod, args)` through the function
pointer of the unit. The test executor is written out here, because it calls
`execute` of its sub-units; `CallUnit.test_executor` below is the same code as
a function of its own. -/
def CallUnit.execute {σ : Type} (rt : Runtime σ) :
    CallUnit → σ → Ptr → Ptr → Arguments → Option (Result σ)
  | CallUnit.null, _, _, _, _ => none
  | CallUnit.object k v m e n w cond c_then c_else x, s, exec, mod, args =>
    match x with
    | Executor.constant_value_executor =>
      CallUnit.constant_value_executor rt (CallUnit.object k v m e n w cond c_then c_else x)
        s exec mod args
    | Executor.method_executor =>
      CallUnit.method_executor rt (CallUnit.object k v m e n w cond c_then c_else x)
        s exec mod args
    | Executor.kind_of_executor =>
      CallUnit.kind_of_executor rt (CallUnit.object k v m e n w cond c_then c_else x)
        s exec mod args
    | Executor.test_executor =>
      match CallUnit.execute rt cond s exec mod args with
      | none => none
      | some r =>
        if r.ret = 0 then some r
        else if rt.CBOOL r.ret then CallUnit.execute rt c_then r.state exec mod r.args
        else CallUnit.execute rt c_else r.state exec mod r.args

/-- `CallUnit::test_executor` (lines 74-85): the condition runs first; a null
result is returned at once; otherwise the then-unit or the else-unit runs, on
the truthiness of the result, with the `exec`, `mod` and `args` of the caller. -/
def CallUnit.test_executor {σ : Type} (rt : Runtime σ) (unit : CallUnit) (s : σ)
    (exec mod : Ptr) (args : Arguments) : Option (Result σ) :=
  match unit with
  | CallUnit.null => none
  | CallUnit.object _ _ _ _ _ _ cond c_then c_else _ =>
    match CallUnit.execute rt cond s exec mod args with
    | none => none
    | some ret =>
      if ret.ret = 0 then some ret
      else if rt.CBOOL ret.ret then CallUnit.execute rt c_then ret.state exec mod ret.args
      else CallUnit.execute rt c_else ret.state exec mod ret.args

/-! ## Concrete units and a runtime that counts calls -/

/-- A runtime whose machine state is a counter of the calls of
`Executable::execute`: every executable returns `cTrue` and adds one to the
counter. `cFalse` is 10, `cTrue` is 18; the words 10 and 26 are falsy; the one
module is the word 40, and its one instance is the word 41. -/
def counting_runtime : Runtime Nat :=
  { cFalse := 10,
    cTrue := 18,
    CBOOL := fun p => decide (p ≠ 10 ∧ p ≠ 26),
    try_as_Module := fun v => if v = 40 then v else 0,
    kind_of_p := fun _ obj mod => decide (obj = 41 ∧ mod = 40),
    execute := fun _ s _ _ args => some { ret := 18, state := s + 1, args := args } }

/-- A unit as `new_object<CallUnit>` hands it to a factory, before any field
is set. -/
def fresh_unit : CallUnit :=
  CallUnit.object Kind.eConstantValue 0 0 0 0 0 CallUnit.null CallUnit.null CallUnit.null
    Executor.constant_value_executor

/-- A test unit whose condition is the constant null (the failure signal) and
whose branches are method units that count their calls. -/
def failing_test_unit : CallUnit :=
  CallUnit.create_test fresh_unit (CallUnit.create_constant_value fresh_unit 0)
    (CallUnit.create_for_method fresh_unit 40 50 60)
    (CallUnit.create_for_method fresh_unit 40 51 61)

/-- A test unit whose condition is the constant `cTrue`, whose then-branch is
a method unit with name 60 and whose else-branch is the constant 77. -/
def true_test_unit : CallUnit :=
  CallUnit.create_test fresh_unit (CallUnit.create_constant_value fresh_unit 18)
    (CallUnit.create_for_method fresh_unit 40 50 60)
    (CallUnit.create_constant_value fresh_unit 77)

/-- An argument set with receiver 41 and the two arguments 7 and 41. -/
def two_arguments : Arguments := { name := 0, recv := 41, arguments := [7, 41] }

/-! ## Trees of test units -/

/-- A finite tree of call units as the factories build them: a leaf is a
constant-value unit or a type-test unit, an inner node is a test unit whose
condition, then-unit and else-unit are such trees. -/
inductive TestTree : CallUnit → Prop where
  | constant_value (v m e n : Ptr) (w : Int) (c t el : CallUnit) :
      TestTree (CallUnit.object Kind.eConstantValue v m e n w c t el
        Executor.constant_value_executor)
  | kind_of (v m e n : Ptr) (w : Int) (c t el : CallUnit) :
      TestTree (CallUnit.object Kind.eKindOf v m e n w c t el Executor.kind_of_executor)
  | test (v m e n : Ptr) (w : Int) (c t el : CallUnit) :
      TestTree c → TestTree t → TestTree el →
      TestTree (CallUnit.object Kind.eTest v m e n w c t el Executor.test_executor)

/-- A `TestTree` in which every type-test leaf stores the sentinel -1 or a
non-negative index. -/
inductive IndexedTestTree : CallUnit → Prop where
  | constant_value (v m e n : Ptr) (w : Int) (c t el : CallUnit) :
      IndexedTestTree (CallUnit.object Kind.eConstantValue v m e n w c t el
        Executor.constant_value_executor)
  | kind_of (v m e n : Ptr) (w : Int) (c t el : CallUnit) :
      -1 ≤ w →
      IndexedTestTree (CallUnit.object Kind.eKindOf v m e n w c t el Executor.kind_of_executor)
  | test (v m e n : Ptr) (w : Int) (c t el : CallUnit) :
      IndexedTestTree c → IndexedTestTree t → IndexedTestTree el →
      IndexedTestTree (CallUnit.object Kind.eTest v m e n w c t el Executor.test_executor)

/-- `Evaluates rt unit s exec mod args path r`: the evaluation of a tree along one
path. A leaf is evaluated alone and gives its own result. At a test node the
condition is evaluated first; when it gives the failure result (null), that is
the result of the node and no branch is evaluated; otherwise exactly one branch
is evaluated, the then-unit on a truthy result and the else-unit on a falsy
one, from the state and the argument set the condition left, and its result is
the result of the node. `path` lists the units evaluated, in order. -/
inductive Evaluates {σ : Type} (rt : Runtime σ) :
    CallUnit → σ → Ptr → Ptr → Arguments → List CallUnit → Result σ → Prop where
  | leaf_constant_value (k : Kind) (v m e n : Ptr) (w : Int) (c t el : CallUnit) (s : σ)
      (exec mod : Ptr) (args : Arguments) :
      Evaluates rt (CallUnit.object k v m e n w c t el Executor.constant_value_executor)
        s exec mod args
        [CallUnit.object k v m e n w c t el Executor.constant_value_executor]
        { ret := v, state := s, args := args }
  | leaf_kind_of (k : Kind) (v m e n : Ptr) (w : Int) (c t el : CallUnit) (s : σ)
      (exec mod : Ptr) (args : Arguments) (r : Result σ) :
      CallUnit.kind_of_executor rt
        (CallUnit.object k v m e n w c t el Executor.kind_of_executor) s exec mod args
        = some r →
      Evaluates rt (CallUnit.object k v m e n w c t el Executor.kind_of_executor)
        s exec mod args [CallUnit.object k v m e n w c t el Executor.kind_of_executor] r
  | condition_failed (k : Kind) (v m e n : Ptr) (w : Int) (cond t el : CallUnit) (s : σ)
      (exec mod : Ptr) (args : Arguments) (p : List CallUnit) (c : Result σ) :
      Evaluates rt cond s exec mod args p c → c.ret = 0 →
      Evaluates rt (CallUnit.object k v m e n w cond t el Executor.test_executor)
        s exec mod args
        (CallUnit.object k v m e n w cond t el Executor.test_executor :: p) c
  | then_branch (k : Kind) (v m e n : Ptr) (w : Int) (cond t el : CallUnit) (s : σ)
      (exec mod : Ptr) (args : Arguments) (p q : List CallUnit) (c r : Result σ) :
      Evaluates rt cond s exec mod args p c → c.ret ≠ 0 → rt.CBOOL c.ret = true →
      Evaluates rt t c.state exec mod c.args q r →
      Evaluates rt (CallUnit.object k v m e n w cond t el Executor.test_executor)
        s exec mod args
        (CallUnit.object k v m e n w cond t el Executor.test_executor :: (p ++ q)) r
  | else_branch (k : Kind) (v m e n : Ptr) (w : Int) (cond t el : CallUnit) (s : σ)
      (exec mod : Ptr) (args : Arguments) (p q : List CallUnit) (c r : Result σ) :
      Evaluates rt cond s exec mod args p c → c.ret ≠ 0 → rt.CBOOL c.ret = false →
      Evaluates rt el c.state exec mod c.args q r →
      Evaluates rt (CallUnit.object k v m e n w cond t el Executor.test_executor)
        s exec mod args
        (CallUnit.object k v m e n w cond t el Executor.test_executor :: (p ++ q)) r

/-- A test unit whose condition is the constant `cTrue` and whose then-unit is
a type-test leaf that stores the index -2. -/
def negative_index_tree : CallUnit :=
  CallUnit.create_test fresh_unit (CallUnit.create_constant_value fresh_unit 18)
    (CallUnit.create_kind_of fresh_unit 40 (-2))
    (CallUnit.create_constant_value fresh_unit 77)

/-- A test unit whose condition is the constant `cTrue`, whose then-unit is a
type-test leaf on argument 1, and whose else-unit is the constant 77. -/
def indexed_tree : CallUnit :=
  CallUnit.create_test fresh_unit (CallUnit.create_constant_value fresh_unit 18)
    (CallUnit.create_kind_of fresh_unit 40 1)
    (CallUnit.create_constant_value fresh_unit 77)

/-! ## The multi-value cast of the interpreter (machine/interpreter/cast_multi_value.cpp) -/

/-- A `CallFrame` as the instruction handlers see it: the instruction pointer
`ip` and the rest of the frame (stack, scope), which is left abstract. -/
structure CallFrame (φ : Type) where
  ip : Int
  rest : φ
deriving DecidableEq, Repr

/-- Modelled from the spec: `CallFrame::next_ip(width)` (declared outside the
translated sources) advances the instruction pointer by the encoded width of
the instruction. -/
def CallFrame.next_ip {φ : Type} (call_frame : CallFrame φ) (width : Int) : CallFrame φ :=
  { call_frame with ip := call_frame.ip + width }

/-- What `instructions::cast_multi_value(state, call_frame)` leaves behind: its
boolean result (true: the value on the stack is now an array, the cast
succeeded; false: the conversion signalled failure), the machine state and the
rest of the frame. -/
structure CastOutcome (σ φ : Type) where
  ok : Bool
  state : σ
  rest : φ

/-- What `interpreter::cast_multi_value` uses of the rest of the machine, all
declared outside the translated sources: the cast itself, the widths
`data_cast_multi_value.width` and `data_run_exception.width`, and the call of
the handler whose address is stored in a cell of the opcode table
(`((Instruction)opcodes[ip])(state, call_frame, opcodes)`). -/
structure Instructions (σ φ : Type) where
  cast_multi_value : σ → φ → CastOutcome σ φ
  cast_multi_value_width : Int
  run_exception_width : Int
  call : Int → σ → CallFrame φ → (Int → Int) → Int

namespace interpreter

/-- The frame `interpreter::cast_multi_value` hands to the next handler (lines
6-11): after a cast that returned true the instruction pointer has moved by the
width of the cast instruction plus the width of the exception instruction,
after a cast that returned false by the width of the cast instruction only. -/
def cast_multi_value_frame {σ φ : Type} (ins : Instructions σ φ) (state : σ)
    (call_frame : CallFrame φ) : CallFrame φ :=
  let r := ins.cast_multi_value state call_frame.rest
  let frame : CallFrame φ := { ip := call_frame.ip, rest := r.rest }
  if r.ok then frame.next_ip (ins.cast_multi_value_width + ins.run_exception_width)
  else frame.next_ip ins.cast_multi_value_width

/-- `interpreter::cast_multi_value` (lines 5-14): the cast, the move of the
instruction pointer, then the tail call of the handler stored in the opcode
table at the new instruction pointer. -/
def cast_multi_value {σ φ : Type} (ins : Instructions σ φ) (state : σ)
    (call_frame : CallFrame φ) (opcodes : Int → Int) : Int :=
  let r := ins.cast_multi_value state call_frame.rest
  let next := cast_multi_value_frame ins state call_frame
  ins.call (opcodes next.ip) r.state next opcodes

/-- The scenario of the spec: the cast instruction has width 4, the exception
instruction width 2; the cast succeeds or fails as `ok` says and touches
nothing else; the opcode table stores at every offset the address
`1000 + offset`; the handler called next reports its own address. -/
def scenario (ok : Bool) : Instructions Unit Unit :=
  { cast_multi_value := fun s rest => { ok := ok, state := s, rest := rest },
    cast_multi_value_width := 4,
    run_exception_width := 2,
    call := fun handler _ _ _ => handler }

/-- The opcode table of the scenario. -/
def scenario_opcodes : Int → Int := fun offset => 1000 + offset

/-- The frame of the scenario: the cast instruction sits at offset 0. -/
def scenario_frame : CallFrame Unit := { ip := 0, rest := () }

end interpreter

namespace memory

/-! ## The log of a loop -/

theorem for_each_logged {α σ : Type} (bodyL : α → σ × List Event → α × (σ × List Event))
    (body : α → σ → α × σ)
    (H : ∀ a s log, bodyL a (s, log)
      = ((body a s).1, (body a s).2, log ++ (bodyL a (s, [])).2.2)) :
    ∀ l s log, for_each bodyL l (s, log)
      = ((for_each body l s).1, (for_each body l s).2,
          log ++ (for_each bodyL l (s, [])).2.2) := by
  intro l
  induction l with
  | nil => intro s log; simp [for_each]
  | cons a rest ih =>
    intro s log
    have h1 := H a s log
    have h2 := H a s []
    simp only [for_each]
    rw [h1, h2]
    simp only [List.nil_append]
    rw [ih (body a s).2 (log ++ (bodyL a (s, [])).2.2), ih (body a s).2 ((bodyL a (s, [])).2.2)]
    simp [List.append_assoc]

theorem for_each_fst_cons {α σ : Type} (body : α → σ → α × σ) (a : α) (rest : List α) (s : σ) :
    (for_each body (a :: rest) s).1 = (body a s).1 :: (for_each body rest (body a s).2).1 := rfl

theorem for_each_snd_cons {α σ : Type} (body : α → σ → α × σ) (a : α) (rest : List α) (s : σ) :
    (for_each body (a :: rest) s).2 = (for_each body rest (body a s).2).2 := rfl

theorem for_each_log_cons {α σ : Type} (bodyL : α → σ × List Event → α × (σ × List Event))
    (body : α → σ → α × σ)
    (H : ∀ a s log, bodyL a (s, log)
      = ((body a s).1, (body a s).2, log ++ (bodyL a (s, [])).2.2))
    (a : α) (rest : List α) (s : σ) :
    (for_each bodyL (a :: rest) (s, [])).2.2
      = (bodyL a (s, [])).2.2 ++ (for_each bodyL rest ((body a s).2, [])).2.2 := by
  have h2 := H a s []
  simp only [for_each]
  rw [h2]
  simp only [List.nil_append]
  rw [for_each_logged bodyL body H rest (body a s).2 ((bodyL a (s, [])).2.2)]

/-! ## Walks compose -/

theorem Walk.append {P Q : SlotKind → Ptr → Prop} {a b : List Item} {e : List Event}
    (h : Walk P Q a b e) {a' b' : List Item} {e' : List Event} (h' : Walk P Q a' b' e') :
    Walk P Q (a ++ a') (b ++ b') (e ++ e') := by
  induction h with
  | done => simpa using h'
  | hook vm _ ih => exact Walk.hook vm ih
  | skip k o v hk _ ih => exact Walk.skip k o v hk ih
  | offer k o v r hk _ ih => exact Walk.offer k o v r hk ih

theorem Walk.mono {P Q P' Q' : SlotKind → Ptr → Prop} (hP : ∀ k v, P k v → P' k v)
    (hQ : ∀ k v, Q k v → Q' k v) {a b : List Item} {e : List Event} (h : Walk P Q a b e) :
    Walk P' Q' a b e := by
  induction h with
  | done => exact Walk.done
  | hook vm _ ih => exact Walk.hook vm ih
  | skip k o v hk _ ih => exact Walk.skip k o v (hQ k v hk) ih
  | offer k o v r hk _ ih => exact Walk.offer k o v r (hP k v hk) ih

theorem for_each_walk {P Q : SlotKind → Ptr → Prop} {α σ : Type}
    (bodyL : α → σ × List Event → α × (σ × List Event)) (body : α → σ → α × σ)
    (items : α → List Item)
    (H : ∀ a s log, bodyL a (s, log)
      = ((body a s).1, (body a s).2, log ++ (bodyL a (s, [])).2.2))
    (HW : ∀ a s, Walk P Q (items a) (items (body a s).1) (bodyL a (s, [])).2.2) :
    ∀ l s, Walk P Q (l.flatMap items) ((for_each body l s).1.flatMap items)
      (for_each bodyL l (s, [])).2.2 := by
  intro l
  induction l with
  | nil => intro s; simpa [for_each] using Walk.done
  | cons a rest ih =>
    intro s
    rw [for_each_log_cons bodyL body H, for_each_fst_cons]
    simp only [List.flatMap_cons]
    exact Walk.append (HW a s) (ih (body a s).2)

theorem flatMap_singleton_eq_map {α β : Type} (g : α → β) (l : List α) :
    l.flatMap (fun v => [g v]) = l.map g := by
  induction l with
  | nil => rfl
  | cons a rest ih => simp [List.flatMap_cons, ih]

theorem for_each_walk_slots {P Q : SlotKind → Ptr → Prop} {σ : Type}
    (bodyL : Ptr → σ × List Event → Ptr × (σ × List Event)) (body : Ptr → σ → Ptr × σ)
    (k : SlotKind) (o : Ptr)
    (H : ∀ a s log, bodyL a (s, log)
      = ((body a s).1, (body a s).2, log ++ (bodyL a (s, [])).2.2))
    (HW : ∀ a s, Walk P Q [Item.slot k o a] [Item.slot k o (body a s).1]
      (bodyL a (s, [])).2.2) (l : List Ptr) (s : σ) :
    Walk P Q (l.map (Item.slot k o)) ((for_each body l s).1.map (Item.slot k o))
      (for_each bodyL l (s, [])).2.2 := by
  have h := for_each_walk bodyL body (fun v => [Item.slot k o v]) H HW l s
  simpa [flatMap_singleton_eq_map] using h

/-! ## The bodies of the loops -/

theorem root_body_logged {σ : Type} (f : Callback σ) (cur : Ptr) (s : σ) (log : List Event) :
    root_body (logged f) cur (s, log)
      = ((root_body f cur s).1, (root_body f cur s).2,
          log ++ (root_body (logged f) cur (s, [])).2.2) := by
  simp [root_body, logged]

theorem root_body_walk {σ : Type} (hd : Ptr → MemoryHeader) (f : Callback σ) (cur : Ptr)
    (s : σ) :
    ExactWalk hd
      [Item.slot SlotKind.root 0 cur] [Item.slot SlotKind.root 0 (root_body f cur s).1]
      (root_body (logged f) cur (s, [])).2.2 := by
  have h := @Walk.offer (fun k v => offered hd k v = true)
      (fun k v => offered hd k v = false) SlotKind.root 0 cur (f s 0 cur).1 [] [] []
      (by simp [offered]) Walk.done
  simpa [root_body, logged, forwarded] using h

theorem variable_body_logged {σ : Type} (hd : Ptr → MemoryHeader) (f : Callback σ) (vrb cur : Ptr)
    (s : σ) (log : List Event) :
    variable_body hd (logged f) vrb cur (s, log)
      = ((variable_body hd f vrb cur s).1, (variable_body hd f vrb cur s).2,
          log ++ (variable_body hd (logged f) vrb cur (s, [])).2.2) := by
  unfold variable_body
  split
  · simp
  · split <;> simp [logged]

theorem variable_body_walk {σ : Type} (hd : Ptr → MemoryHeader) (f : Callback σ) (vrb cur : Ptr)
    (s : σ) :
    ExactWalk hd
      [Item.slot SlotKind.var vrb cur]
      [Item.slot SlotKind.var vrb (variable_body hd f vrb cur s).1]
      (variable_body hd (logged f) vrb cur (s, [])).2.2 := by
  unfold variable_body
  by_cases h0 : cur = 0
  · simp only [h0, if_true]
    exact Walk.skip SlotKind.var vrb 0 (by simp [offered]) Walk.done
  · by_cases hr : (hd cur).reference_p = true
    · have h := @Walk.offer (fun k v => offered hd k v = true)
        (fun k v => offered hd k v = false) SlotKind.var vrb cur (f s vrb cur).1 [] [] []
        (by simp [offered, h0, hr]) Walk.done
      simpa [h0, hr, logged, forwarded] using h
    · simp only [h0, hr, if_false]
      exact Walk.skip SlotKind.var vrb cur (by simp [offered, h0, hr]) Walk.done

theorem buffer_body_logged {σ : Type} (hd : Ptr → MemoryHeader) (f : Callback σ) (buffer cur : Ptr)
    (s : σ) (log : List Event) :
    buffer_body hd (logged f) buffer cur (s, log)
      = ((buffer_body hd f buffer cur s).1, (buffer_body hd f buffer cur s).2,
          log ++ (buffer_body hd (logged f) buffer cur (s, [])).2.2) := by
  unfold buffer_body
  split <;> simp [logged]

theorem buffer_body_walk {σ : Type} (hd : Ptr → MemoryHeader) (f : Callback σ) (buffer cur : Ptr)
    (s : σ) :
    ExactWalk hd
      [Item.slot SlotKind.buffer buffer cur]
      [Item.slot SlotKind.buffer buffer (buffer_body hd f buffer cur s).1]
      (buffer_body hd (logged f) buffer cur (s, [])).2.2 := by
  unfold buffer_body
  by_cases hr : (hd cur).reference_p = true
  · have h := @Walk.offer (fun k v => offered hd k v = true)
      (fun k v => offered hd k v = false) SlotKind.buffer buffer cur (f s buffer cur).1 [] [] []
      (by simp [offered, hr]) Walk.done
    simpa [hr, logged, forwarded] using h
  · simp only [hr, if_false]
    exact Walk.skip SlotKind.buffer buffer cur (by simp [offered, hr]) Walk.done

theorem variable_root_buffer_body_logged {σ : Type} (hd : Ptr → MemoryHeader) (f : Callback σ)
    (vrb : VariableRootBuffer) (s : σ) (log : List Event) :
    variable_root_buffer_body hd (logged f) vrb (s, log)
      = ((variable_root_buffer_body hd f vrb s).1, (variable_root_buffer_body hd f vrb s).2,
          log ++ (variable_root_buffer_body hd (logged f) vrb (s, [])).2.2) := by
  simp only [variable_root_buffer_body]
  rw [for_each_logged _ _ (variable_body_logged hd f vrb.addr) vrb.slots s log]

theorem variable_root_buffer_body_walk {σ : Type} (hd : Ptr → MemoryHeader) (f : Callback σ)
    (vrb : VariableRootBuffer) (s : σ) :
    ExactWalk hd (variable_root_buffer_items vrb)
      (variable_root_buffer_items (variable_root_buffer_body hd f vrb s).1)
      (variable_root_buffer_body hd (logged f) vrb (s, [])).2.2 := by
  simp only [variable_root_buffer_body, variable_root_buffer_items]
  exact for_each_walk_slots _ _ SlotKind.var vrb.addr (variable_body_logged hd f vrb.addr)
    (variable_body_walk hd f vrb.addr) vrb.slots s

theorem root_buffer_body_logged {σ : Type} (hd : Ptr → MemoryHeader) (f : Callback σ)
    (b : RootBuffer) (s : σ) (log : List Event) :
    root_buffer_body hd (logged f) b (s, log)
      = ((root_buffer_body hd f b s).1, (root_buffer_body hd f b s).2,
          log ++ (root_buffer_body hd (logged f) b (s, [])).2.2) := by
  simp only [root_buffer_body]
  rw [for_each_logged _ _ (buffer_body_logged hd f b.buffer) b.slots s log]

theorem root_buffer_body_walk {σ : Type} (hd : Ptr → MemoryHeader) (f : Callback σ)
    (b : RootBuffer) (s : σ) :
    ExactWalk hd (root_buffer_items b) (root_buffer_items (root_buffer_body hd f b s).1)
      (root_buffer_body hd (logged f) b (s, [])).2.2 := by
  simp only [root_buffer_body, root_buffer_items]
  exact for_each_walk_slots _ _ SlotKind.buffer b.buffer (buffer_body_logged hd f b.buffer)
    (buffer_body_walk hd f b.buffer) b.slots s

/-- The log one thread adds: root stack, variable root buffers, root buffers,
hook. -/
theorem thread_body_log {σ : Type} (hd : Ptr → MemoryHeader) (f : Callback σ) (g : ScanHook σ)
    (thr : ManagedThread) (s : σ) :
    (thread_body hd (logged f) (logged_scan g) thr (s, [])).2.2
      = (for_each (root_body (logged f)) thr.roots (s, [])).2.2
        ++ (for_each (variable_root_buffer_body hd (logged f)) thr.variable_root_buffers
            ((for_each (root_body f) thr.roots s).2, [])).2.2
        ++ (for_each (root_buffer_body hd (logged f)) thr.root_buffers
            ((for_each (variable_root_buffer_body hd f) thr.variable_root_buffers
              (for_each (root_body f) thr.roots s).2).2, [])).2.2
        ++ (if thr.as_vm ≠ 0 then [Event.gc_scan thr.as_vm] else []) := by
  simp only [thread_body]
  rw [for_each_logged _ _ (root_body_logged f) thr.roots s []]
  simp only [List.nil_append]
  rw [for_each_logged _ _ (variable_root_buffer_body_logged hd f) thr.variable_root_buffers]
  rw [for_each_logged _ _ (root_buffer_body_logged hd f) thr.root_buffers]
  split <;> simp [logged_scan, List.append_assoc]

theorem thread_body_logged {σ : Type} (hd : Ptr → MemoryHeader) (f : Callback σ) (g : ScanHook σ)
    (thr : ManagedThread) (s : σ) (log : List Event) :
    thread_body hd (logged f) (logged_scan g) thr (s, log)
      = ((thread_body hd f g thr s).1, (thread_body hd f g thr s).2,
          log ++ (thread_body hd (logged f) (logged_scan g) thr (s, [])).2.2) := by
  rw [thread_body_log]
  simp only [thread_body]
  rw [for_each_logged _ _ (root_body_logged f) thr.roots s log]
  rw [for_each_logged _ _ (variable_root_buffer_body_logged hd f) thr.variable_root_buffers]
  rw [for_each_logged _ _ (root_buffer_body_logged hd f) thr.root_buffers]
  split <;> simp [logged_scan, List.append_assoc]

theorem thread_body_walk {σ : Type} (hd : Ptr → MemoryHeader) (f : Callback σ) (g : ScanHook σ)
    (thr : ManagedThread) (s : σ) :
    ExactWalk hd (thread_items thr) (thread_items (thread_body hd f g thr s).1)
      (thread_body hd (logged f) (logged_scan g) thr (s, [])).2.2 := by
  rw [thread_body_log]
  have h1 := for_each_walk_slots _ _ SlotKind.root 0 (root_body_logged f)
    (root_body_walk hd f) thr.roots s
  have h2 := for_each_walk _ _ variable_root_buffer_items
    (variable_root_buffer_body_logged hd f) (variable_root_buffer_body_walk hd f)
    thr.variable_root_buffers (for_each (root_body f) thr.roots s).2
  have h3 := for_each_walk _ _ root_buffer_items
    (root_buffer_body_logged hd f) (root_buffer_body_walk hd f)
    thr.root_buffers (for_each (variable_root_buffer_body hd f) thr.variable_root_buffers
      (for_each (root_body f) thr.roots s).2).2
  have h4 : ExactWalk hd (if thr.as_vm ≠ 0 then [Item.hook thr.as_vm] else [])
      (if thr.as_vm ≠ 0 then [Item.hook thr.as_vm] else [])
      (if thr.as_vm ≠ 0 then [Event.gc_scan thr.as_vm] else []) := by
    split
    · exact Walk.hook _ Walk.done
    · exact Walk.done
  have h := ((h1.append h2).append h3).append h4
  simpa [thread_items, thread_body] using h

/-! ## The handle-table loop -/

theorem references_loop_logged {σ : Type} (f : Callback σ) :
    ∀ (refs : List Ptr) (hd : Ptr → MemoryHeader) (s : σ) (log : List Event),
      references_loop (logged f) refs hd (s, log)
        = ((references_loop f refs hd s).1, (references_loop f refs hd s).2,
            log ++ (references_loop (logged f) refs hd (s, [])).2.2) := by
  intro refs
  induction refs with
  | nil => intro hd s log; simp [references_loop]
  | cons obj rest ih =>
    intro hd s log
    have hcall : ∀ hd2 : Ptr → MemoryHeader,
        references_loop (logged f) rest hd2 (logged f (s, log) 0 obj).2
          = ((references_loop f rest hd2 (f s 0 obj).2).1,
              (references_loop f rest hd2 (f s 0 obj).2).2,
              log ++ (references_loop (logged f) rest hd2 (logged f (s, []) 0 obj).2).2.2) := by
      intro hd2
      simp only [logged, List.nil_append]
      rw [ih hd2 (f s 0 obj).2 (log ++ [Event.call 0 obj (f s 0 obj).1]),
        ih hd2 (f s 0 obj).2 [Event.call 0 obj (f s 0 obj).1]]
      simp
    simp only [references_loop]
    repeat' split
    all_goals first | exact hcall _ | exact ih _ _ _

/-- The log of the handle-table loop, one entry at a time. -/
theorem references_log_cons {σ : Type} (f : Callback σ) (obj : Ptr) (rest : List Ptr)
    (hd : Ptr → MemoryHeader) (s : σ) :
    (references_loop (logged f) (obj :: rest) hd (s, [])).2.2
      = if (hd obj).reference_p then
          if (hd obj).object_p then
            if (hd obj).referenced > 0 then
              Event.call 0 obj (f s 0 obj).1
                :: (references_loop (logged f) rest hd ((f s 0 obj).2, [])).2.2
            else
              match (hd obj).handle with
              | some handle =>
                if handle.accesses > 0 then
                  Event.call 0 obj (f s 0 obj).1
                    :: (references_loop (logged f) rest
                        (Function.update hd obj (hd obj).unset_accesses)
                        ((f s 0 obj).2, [])).2.2
                else (references_loop (logged f) rest hd (s, [])).2.2
              | none =>
                if !(hd obj).finalizer_p && !(hd obj).weakref_p then
                  Event.call 0 obj (f s 0 obj).1
                    :: (references_loop (logged f) rest hd ((f s 0 obj).2, [])).2.2
                else (references_loop (logged f) rest hd (s, [])).2.2
          else (references_loop (logged f) rest hd (s, [])).2.2
        else (references_loop (logged f) rest hd (s, [])).2.2 := by
  have hcall : ∀ hd2 : Ptr → MemoryHeader,
      (references_loop (logged f) rest hd2 (logged f (s, []) 0 obj).2).2.2
        = Event.call 0 obj (f s 0 obj).1
            :: (references_loop (logged f) rest hd2 ((f s 0 obj).2, [])).2.2 := by
    intro hd2
    simp only [logged, List.nil_append]
    rw [references_loop_logged f rest hd2 (f s 0 obj).2 [Event.call 0 obj (f s 0 obj).1]]
    simp
  simp only [references_loop]
  repeat' split
  all_goals first | exact hcall _ | rfl

theorem references_log_nil {σ : Type} (f : Callback σ) (hd : Ptr → MemoryHeader) (s : σ) :
    (references_loop (logged f) [] hd (s, [])).2.2 = [] := rfl

/-- The handle-table loop offers entries in table order, each at most once,
always with a null owner. -/
theorem references_log_sublist {σ : Type} (f : Callback σ) :
    ∀ (refs : List Ptr) (hd : Ptr → MemoryHeader) (s : σ),
      List.Sublist ((references_loop (logged f) refs hd (s, [])).2.2.map Event.visit)
        (refs.map (Visit.call 0)) := by
  intro refs
  induction refs with
  | nil => intro hd s; simp [references_log_nil]
  | cons obj rest ih =>
    intro hd s
    rw [references_log_cons]
    repeat' split
    all_goals first
      | exact List.Sublist.cons₂ _ (ih _ _)
      | exact List.Sublist.cons _ (ih _ _)

theorem unset_accesses_idem (h : MemoryHeader) :
    h.unset_accesses.unset_accesses = h.unset_accesses := by
  cases h with
  | mk r o d n handle fin weak =>
    cases handle <;> simp [MemoryHeader.unset_accesses, MemoryHandle.unset_accesses]

/-- The handle-table loop leaves every header as it was or with its access
counter reset. -/
theorem references_loop_headers {σ : Type} (f : Callback σ) :
    ∀ (refs : List Ptr) (hd : Ptr → MemoryHeader) (s : σ) (p : Ptr),
      (references_loop f refs hd s).1 p = hd p
        ∨ (references_loop f refs hd s).1 p = (hd p).unset_accesses := by
  intro refs
  induction refs with
  | nil => intro hd s p; left; rfl
  | cons obj rest ih =>
    intro hd s p
    have hupd : ∀ s2, (references_loop f rest
          (Function.update hd obj (hd obj).unset_accesses) s2).1 p = hd p
        ∨ (references_loop f rest
          (Function.update hd obj (hd obj).unset_accesses) s2).1 p = (hd p).unset_accesses := by
      intro s2
      by_cases hp : p = obj
      · subst hp
        right
        rcases ih (Function.update hd p (hd p).unset_accesses) s2 p with h | h
        · rw [h]; simp
        · rw [h]; simp [unset_accesses_idem]
      · rcases ih (Function.update hd obj (hd obj).unset_accesses) s2 p with h | h
        · left; rw [h]; simp [Function.update_noteq hp]
        · right; rw [h]; simp [Function.update_noteq hp]
    simp only [references_loop]
    repeat' split
    all_goals first | exact hupd _ | exact ih _ _ _

/-- Every call of the handle-table loop is on an entry of the table that is an
object reference and satisfies the offering condition of the source. -/
theorem references_log_offerable {σ : Type} (f : Callback σ) :
    ∀ (refs : List Ptr) (hd : Ptr → MemoryHeader) (s : σ) (e : Event),
      e ∈ (references_loop (logged f) refs hd (s, [])).2.2 →
      ∃ p r, e = Event.call 0 p r ∧ p ∈ refs ∧ (hd p).reference_p = true
        ∧ (hd p).object_p = true ∧ (hd p).offerable := by
  intro refs
  induction refs with
  | nil => intro hd s e he; simp [references_log_nil] at he
  | cons obj rest ih =>
    intro hd s e
    have hrest : ∀ s2, e ∈ (references_loop (logged f) rest hd (s2, [])).2.2 →
        ∃ p r, e = Event.call 0 p r ∧ p ∈ obj :: rest ∧ (hd p).reference_p = true
          ∧ (hd p).object_p = true ∧ (hd p).offerable := by
      intro s2 he
      obtain ⟨p, r, h1, h2, h3⟩ := ih hd s2 e he
      exact ⟨p, r, h1, List.mem_cons_of_mem _ h2, h3⟩
    rw [references_log_cons]
    split
    · rename_i href
      split
      · rename_i hobj
        split
        · rename_i hcnt
          intro he
          rcases List.mem_cons.mp he with h | h
          · exact ⟨obj, _, h, List.mem_cons_self _ _, href, hobj, Or.inl hcnt⟩
          · exact hrest _ h
        · split
          · rename_i handle hh
            split
            · rename_i hacc
              intro he
              have hobj_ok : ∃ p r, Event.call 0 obj (f s 0 obj).1 = Event.call 0 p r
                  ∧ p ∈ obj :: rest ∧ (hd p).reference_p = true
                  ∧ (hd p).object_p = true ∧ (hd p).offerable :=
                ⟨obj, _, rfl, List.mem_cons_self _ _, href, hobj,
                  Or.inr (Or.inl ⟨handle, hh, hacc⟩)⟩
              rcases List.mem_cons.mp he with h | h
              · rw [h]; exact hobj_ok
              · obtain ⟨p, r, h1, h2, h3, h4, h5⟩ := ih _ _ e h
                by_cases hp : p = obj
                · subst hp
                  exact ⟨p, r, h1, List.mem_cons_self _ _, href, hobj,
                    Or.inr (Or.inl ⟨handle, hh, hacc⟩)⟩
                · rw [Function.update_noteq hp] at h3 h4 h5
                  exact ⟨p, r, h1, List.mem_cons_of_mem _ h2, h3, h4, h5⟩
            · exact hrest _
          · rename_i hh
            split
            · rename_i hflags
              intro he
              rcases List.mem_cons.mp he with h | h
              · refine ⟨obj, _, h, List.mem_cons_self _ _, href, hobj, Or.inr (Or.inr ?_)⟩
                simpa [hh] using hflags
              · exact hrest _ h
            · exact hrest _
      · exact hrest _
    · exact hrest _

theorem unset_accesses_handle (h : MemoryHeader) (m : MemoryHandle) (hm : h.handle = some m) :
    h.unset_accesses.handle = some { accesses := 0 } := by
  simp [MemoryHeader.unset_accesses, MemoryHandle.unset_accesses, hm]

/-- An entry of the table with reference count zero and a handle whose access
counter is nonzero is offered by the handle-table loop, and its counter reads
zero when the loop is done. -/
theorem references_loop_resets {σ : Type} (f : Callback σ) :
    ∀ (refs : List Ptr) (hd : Ptr → MemoryHeader) (s : σ) (p : Ptr) (m : MemoryHandle),
      p ∈ refs → (hd p).reference_p = true → (hd p).object_p = true →
      (hd p).referenced = 0 → (hd p).handle = some m → 0 < m.accesses →
      (∃ r, Event.call 0 p r ∈ (references_loop (logged f) refs hd (s, [])).2.2)
        ∧ ((references_loop f refs hd s).1 p).handle = some { accesses := 0 } := by
  intro refs
  induction refs with
  | nil => intro hd s p m hp; simp at hp
  | cons obj rest ih =>
    intro hd s p m hp href hobj hcnt hh hacc
    by_cases hpo : obj = p
    · subst hpo
      rw [references_log_cons]
      simp only [references_loop, href, hobj, hcnt, hh, hacc, if_true, lt_irrefl, if_false,
        gt_iff_lt]
      refine ⟨⟨_, List.mem_cons_self _ _⟩, ?_⟩
      rcases references_loop_headers f rest
          (Function.update hd obj (hd obj).unset_accesses) (f s 0 obj).2 obj with h | h
      · rw [h]; simp [unset_accesses_handle _ m hh]
      · rw [h]; simp [unset_accesses_idem, unset_accesses_handle _ m hh]
    · have hmem : p ∈ rest := by
        rcases List.mem_cons.mp hp with h | h
        · exact absurd h.symm hpo
        · exact h
      have hne : p ≠ obj := fun h => hpo h.symm
      have key : ∀ (hd2 : Ptr → MemoryHeader) (s2 : σ), hd2 p = hd p →
          (∃ r, Event.call 0 p r ∈ (references_loop (logged f) rest hd2 (s2, [])).2.2)
            ∧ ((references_loop f rest hd2 s2).1 p).handle = some { accesses := 0 } := by
        intro hd2 s2 e
        exact ih hd2 s2 p m hmem (by rw [e]; exact href) (by rw [e]; exact hobj)
          (by rw [e]; exact hcnt) (by rw [e]; exact hh) hacc
      have key1 : ∀ (hd2 : Ptr → MemoryHeader) (s2 : σ), hd2 p = hd p →
          ∃ r, Event.call 0 p r ∈ (references_loop (logged f) rest hd2 (s2, [])).2.2 :=
        fun hd2 s2 e => (key hd2 s2 e).1
      have key1c : ∀ (hd2 : Ptr → MemoryHeader) (s2 : σ) (ev : Event), hd2 p = hd p →
          ∃ r, Event.call 0 p r
            ∈ ev :: (references_loop (logged f) rest hd2 (s2, [])).2.2 := by
        intro hd2 s2 ev e
        obtain ⟨r, hr⟩ := key1 hd2 s2 e
        exact ⟨r, List.mem_cons_of_mem _ hr⟩
      have key2 : ∀ (hd2 : Ptr → MemoryHeader) (s2 : σ), hd2 p = hd p →
          ((references_loop f rest hd2 s2).1 p).handle = some { accesses := 0 } :=
        fun hd2 s2 e => (key hd2 s2 e).2
      have hupd : Function.update hd obj (hd obj).unset_accesses p = hd p :=
        Function.update_noteq hne _ _
      rw [references_log_cons]
      simp only [references_loop]
      repeat' split
      all_goals refine ⟨?_, ?_⟩
      all_goals first
        | exact key1 _ _ rfl
        | exact key1c _ _ _ rfl
        | exact key1c _ _ _ hupd
        | exact key2 _ _ rfl
        | exact key2 _ _ hupd

/-! ## The whole of collect_roots -/

theorem state_before_references_logged {σ : Type} (f : Callback σ) (g : ScanHook σ) (w : Heap)
    (s : σ) (log : List Event) :
    state_before_references (logged f) (logged_scan g) w (s, log)
      = (state_before_references f g w s, log ++ root_walk_log f g w s) := by
  simp only [root_walk_log, state_before_references]
  rw [for_each_logged _ _ (root_body_logged f) w.globals_roots s log,
    for_each_logged _ _ (root_body_logged f) w.globals_roots s []]
  rw [for_each_logged _ _ (thread_body_logged w.headers f g) w.threads _ (log ++ _),
    for_each_logged _ _ (thread_body_logged w.headers f g) w.threads _ ([] ++ _)]
  simp [List.append_assoc]

/-- Logging changes nothing: the logged run computes the heap and the callback
state of the plain run, and appends its events to the log. -/
theorem collect_roots_logged {σ : Type} (f : Callback σ) (g : ScanHook σ) (w : Heap)
    (s : σ) (log : List Event) :
    collect_roots (logged f) (logged_scan g) w (s, log)
      = ((collect_roots f g w s).1, (collect_roots f g w s).2,
          log ++ (root_walk_log f g w s ++ references_log f g w s)) := by
  have hst := state_before_references_logged f g w s log
  simp only [state_before_references] at hst
  simp only [collect_roots, references_log, state_before_references]
  rw [hst, references_loop_logged]
  rw [for_each_logged _ _ (root_body_logged f) w.globals_roots s log]
  rw [for_each_logged _ _ (thread_body_logged w.headers f g) w.threads]
  simp [List.append_assoc]

theorem collect_roots_log_eq {σ : Type} (f : Callback σ) (g : ScanHook σ) (w : Heap) (s : σ) :
    collect_roots_log f g w s = root_walk_log f g w s ++ references_log f g w s := by
  simp [collect_roots_log, collect_roots_logged]

theorem root_walk_exact {σ : Type} (f : Callback σ) (g : ScanHook σ) (w : Heap) (s : σ) :
    ExactWalk w.headers (root_items w) (root_items (collect_roots f g w s).1)
      (root_walk_log f g w s) := by
  have h1 := for_each_walk_slots _ _ SlotKind.root 0 (root_body_logged f)
    (root_body_walk w.headers f) w.globals_roots s
  have h2 := for_each_walk _ _ thread_items (thread_body_logged w.headers f g)
    (thread_body_walk w.headers f g) w.threads (for_each (root_body f) w.globals_roots s).2
  have h := h1.append h2
  have hlog : root_walk_log f g w s
      = (for_each (root_body (logged f)) w.globals_roots (s, [])).2.2
        ++ (for_each (thread_body w.headers (logged f) (logged_scan g)) w.threads
            ((for_each (root_body f) w.globals_roots s).2, [])).2.2 := by
    simp only [root_walk_log, state_before_references]
    rw [for_each_logged _ _ (root_body_logged f) w.globals_roots s []]
    rw [for_each_logged _ _ (thread_body_logged w.headers f g) w.threads]
  rw [hlog]
  simpa [root_items, collect_roots] using h

/-! ## The order of the calls -/

theorem walk_visits (hd : Ptr → MemoryHeader) {a b : List Item} {e : List Event}
    (h : ExactWalk hd a b e) : e.map Event.visit = a.flatMap (item_visits hd) := by
  induction h with
  | done => rfl
  | hook vm _ ih => simp [List.flatMap_cons, item_visits, Event.visit, ih]
  | skip k o v hk _ ih =>
    have hk2 : offered hd k v = false := hk
    simp [List.flatMap_cons, item_visits, hk2, ih]
  | offer k o v r hk _ ih =>
    have hk2 : offered hd k v = true := hk
    simp [List.flatMap_cons, item_visits, Event.visit, hk2, ih]

theorem slot_visits (hd : Ptr → MemoryHeader) (k : SlotKind) (o : Ptr) (l : List Ptr) :
    (l.map (Item.slot k o)).flatMap (item_visits hd)
      = (l.filter (offered hd k)).map (Visit.call o) := by
  induction l with
  | nil => rfl
  | cons v rest ih =>
    by_cases h : offered hd k v = true
    · simp [List.flatMap_cons, item_visits, h, List.filter_cons, ih]
    · simp [List.flatMap_cons, item_visits, h, List.filter_cons, ih]

theorem filter_offered_root (hd : Ptr → MemoryHeader) (l : List Ptr) :
    l.filter (offered hd SlotKind.root) = l :=
  List.filter_eq_self.mpr (fun _ _ => rfl)

theorem root_slot_visits (hd : Ptr → MemoryHeader) (l : List Ptr) :
    (l.map (Item.slot SlotKind.root 0)).flatMap (item_visits hd) = l.map (Visit.call 0) := by
  rw [slot_visits, filter_offered_root]

theorem hook_visits (hd : Ptr → MemoryHeader) (vm : Ptr) :
    (if vm ≠ 0 then [Item.hook vm] else []).flatMap (item_visits hd)
      = if vm ≠ 0 then [Visit.gc_scan vm] else [] := by
  split <;> simp [item_visits]

theorem thread_items_visits (hd : Ptr → MemoryHeader) (t : ManagedThread) :
    (thread_items t).flatMap (item_visits hd) = thread_visits hd t := by
  simp only [thread_items, thread_visits, List.flatMap_append, hook_visits,
    List.flatMap_assoc, variable_root_buffer_items, root_buffer_items, slot_visits,
    filter_offered_root]

theorem root_items_visits (w : Heap) :
    (root_items w).flatMap (item_visits w.headers) = root_visits w := by
  simp only [root_items, root_visits, List.flatMap_append, root_slot_visits,
    List.flatMap_assoc, thread_items_visits]

theorem root_walk_log_visits {σ : Type} (f : Callback σ) (g : ScanHook σ) (w : Heap) (s : σ) :
    (root_walk_log f g w s).map Event.visit = root_visits w := by
  rw [walk_visits w.headers (root_walk_exact f g w s), root_items_visits]

theorem root_walk_log_length {σ : Type} (f : Callback σ) (g : ScanHook σ) (w : Heap) (s : σ) :
    (root_walk_log f g w s).length = (root_visits w).length := by
  rw [← root_walk_log_visits f g w s, List.length_map]

theorem collect_roots_log_take {σ : Type} (f : Callback σ) (g : ScanHook σ) (w : Heap) (s : σ) :
    (collect_roots_log f g w s).take (root_visits w).length = root_walk_log f g w s := by
  rw [collect_roots_log_eq]
  exact List.take_left' (root_walk_log_length f g w s)

theorem collect_roots_log_drop {σ : Type} (f : Callback σ) (g : ScanHook σ) (w : Heap) (s : σ) :
    (collect_roots_log f g w s).drop (root_visits w).length = references_log f g w s := by
  rw [collect_roots_log_eq]
  exact List.drop_left' (root_walk_log_length f g w s)

theorem collect_roots_headers {σ : Type} (f : Callback σ) (g : ScanHook σ) (w : Heap) (s : σ) :
    (collect_roots f g w s).1.headers
      = (references_loop f w.references w.headers (state_before_references f g w s)).1 := rfl

/-! ## The layout of the root structures is kept -/

theorem for_each_length {α σ : Type} (body : α → σ → α × σ) :
    ∀ (l : List α) (s : σ), (for_each body l s).1.length = l.length := by
  intro l
  induction l with
  | nil => intro s; rfl
  | cons a rest ih => intro s; simp [for_each_fst_cons, ih]

theorem for_each_map_key {α σ β : Type} (body : α → σ → α × σ) (key : α → β)
    (H : ∀ a s, key (body a s).1 = key a) :
    ∀ (l : List α) (s : σ), (for_each body l s).1.map key = l.map key := by
  intro l
  induction l with
  | nil => intro s; rfl
  | cons a rest ih => intro s; simp [for_each_fst_cons, ih, H]

theorem thread_body_layout {σ : Type} (hd : Ptr → MemoryHeader) (f : Callback σ) (g : ScanHook σ)
    (t : ManagedThread) (s : σ) : (thread_body hd f g t s).1.layout = t.layout := by
  simp only [ManagedThread.layout, thread_body, for_each_length]
  rw [for_each_map_key (variable_root_buffer_body hd f) (fun b => (b.addr, b.slots.length))
      (fun a s => by simp [variable_root_buffer_body, for_each_length]),
    for_each_map_key (root_buffer_body hd f) (fun b => (b.buffer, b.slots.length))
      (fun a s => by simp [root_buffer_body, for_each_length])]

theorem collect_roots_layout {σ : Type} (f : Callback σ) (g : ScanHook σ) (w : Heap) (s : σ) :
    (collect_roots f g w s).1.layout = w.layout := by
  simp only [Heap.layout, collect_roots, for_each_length]
  rw [for_each_map_key (thread_body w.headers f g) ManagedThread.layout
    (thread_body_layout w.headers f g)]

/-! ## Statements about collect_roots -/

/-- C1. For every callback `f`, hook and heap: the root structures keep their
layout, and the calls `f` receives before the handle table pair off with the
root slots in visiting order (global roots, then per thread the root stack, the
variable-root-buffer slots and the root-buffer slots): every slot is either
passed by without a call and unchanged, or offered in exactly one call, with
its content as the object, and afterwards holds `forwarded ret content`, that
is the address `f` returned when it is non-null and the original content when
`f` returned null. -/
theorem collect_roots_forwards_offered_slots {σ : Type} (f : Callback σ) (g : ScanHook σ)
    (w : Heap) (s : σ) :
    (collect_roots f g w s).1.layout = w.layout
      ∧ Walk (fun _ _ => True) (fun _ _ => True) (root_items w)
          (root_items (collect_roots f g w s).1)
          ((collect_roots_log f g w s).take (root_visits w).length) := by
  refine ⟨collect_roots_layout f g w s, ?_⟩
  rw [collect_roots_log_take]
  exact Walk.mono (fun _ _ _ => trivial) (fun _ _ _ => trivial) (root_walk_exact f g w s)

/-- C5, as the code has it. A slot of a variable root buffer or of a root buffer
is offered to the callback only when its content is a heap reference
(`reference_p`); a buffer slot holding anything else is passed by: it causes no
call and keeps its content. Entries of a `Roots` list (global roots, root
stacks) carry no such guard. -/
theorem collect_roots_skips_non_reference_buffer_slots {σ : Type} (f : Callback σ)
    (g : ScanHook σ) (w : Heap) (s : σ) :
    Walk (fun k v => k = SlotKind.root ∨ (w.headers v).reference_p = true) (fun _ _ => True)
      (root_items w) (root_items (collect_roots f g w s).1)
      ((collect_roots_log f g w s).take (root_visits w).length) := by
  rw [collect_roots_log_take]
  refine Walk.mono ?_ (fun _ _ _ => trivial) (root_walk_exact f g w s)
  intro k v h
  cases k with
  | root => exact Or.inl rfl
  | var =>
    right
    have h2 : (decide (v ≠ 0) && (w.headers v).reference_p) = true := h
    exact (Bool.and_eq_true _ _ ▸ h2).2
  | buffer => exact Or.inr h

/-- C5, counterexample. The immediate value 7 (not a heap reference) sits in a
global root and in the root stack of a thread; `collect_roots` calls the
callback on it both times and, the callback answering 9, overwrites both slots.
The two buffer slots holding 7 are left alone. -/
theorem immediate_root_is_offered :
    (immediate_heap.headers 7).reference_p = false
      ∧ immediate_heap.globals_roots = [7]
      ∧ (collect_roots move_to_nine no_scan immediate_heap ()).1.globals_roots = [9]
      ∧ (collect_roots move_to_nine no_scan immediate_heap ()).1.threads
          = [{ roots := [9],
               variable_root_buffers := [{ addr := 100, slots := [7] }],
               root_buffers := [{ buffer := 200, slots := [7] }],
               as_vm := 0 }]
      ∧ collect_roots_log move_to_nine no_scan immediate_heap ()
          = [Event.call 0 7 9, Event.call 0 7 9] := by
  decide

theorem unset_accesses_of_no_handle (h : MemoryHeader) (hn : h.handle = none) :
    h.unset_accesses = h := by
  cases h with
  | mk r o d n handle fin weak =>
    simp only at hn
    subst hn
    rfl

/-- The steps of the handle-table loop are those of the offering policy, entry
by entry. -/
theorem references_log_visits {σ : Type} (f : Callback σ) :
    ∀ (refs : List Ptr) (hd : Ptr → MemoryHeader) (s : σ),
      (references_loop (logged f) refs hd (s, [])).2.2.map Event.visit
        = references_visits refs hd := by
  intro refs
  induction refs with
  | nil => intro hd s; rfl
  | cons obj rest ih =>
    intro hd s
    rw [references_log_cons]
    simp only [references_visits]
    by_cases href : (hd obj).reference_p = true
    · by_cases hobj : (hd obj).object_p = true
      · by_cases hcnt : (hd obj).referenced > 0
        · have hoff : (hd obj).table_offer = true := by
            simp [MemoryHeader.table_offer, href, hobj, hcnt]
          have hafter : (hd obj).after_table_offer = hd obj := by
            simp [MemoryHeader.after_table_offer, hcnt]
          simp only [href, hobj, hcnt, hoff, hafter, if_true, List.map_cons, Event.visit,
            Function.update_eq_self, ih]
        · have hafter : (hd obj).after_table_offer = (hd obj).unset_accesses := by
            simp [MemoryHeader.after_table_offer, hcnt]
          cases hh : (hd obj).handle with
          | some handle =>
            by_cases hacc : handle.accesses > 0
            · have hoff : (hd obj).table_offer = true := by
                simp [MemoryHeader.table_offer, href, hobj, hh, hacc]
              simp only [href, hobj, hcnt, hoff, hafter, hacc, if_true, if_false,
                List.map_cons, Event.visit, ih]
            · have hoff : (hd obj).table_offer = false := by
                simp [MemoryHeader.table_offer, href, hobj, hcnt, hh, hacc]
              simp [href, hobj, hcnt, hoff, hacc, ih]
          | none =>
            by_cases hflags : (!(hd obj).finalizer_p && !(hd obj).weakref_p) = true
            · have hoff : (hd obj).table_offer = true := by
                simp only [MemoryHeader.table_offer, href, hobj, hh, hflags]
                simp
              have hself : (hd obj).unset_accesses = hd obj :=
                unset_accesses_of_no_handle _ hh
              simp only [href, hobj, hcnt, hoff, hafter, hself, hflags, if_true, if_false,
                List.map_cons, Event.visit, Function.update_eq_self, ih]
            · have hoff : (hd obj).table_offer = false := by
                simp only [MemoryHeader.table_offer, href, hobj, hh, hflags]
                simp [hcnt]
              simp only [href, hobj, hcnt, hoff, hflags, if_true, if_false]
              exact ih hd s
      · have hoff : (hd obj).table_offer = false := by
          simp [MemoryHeader.table_offer, hobj]
        simp [href, hobj, hoff, ih]
    · have hoff : (hd obj).table_offer = false := by
        simp [MemoryHeader.table_offer, href]
      simp [href, hoff, ih]

theorem references_visits_sublist :
    ∀ (refs : List Ptr) (hd : Ptr → MemoryHeader),
      List.Sublist (references_visits refs hd) (refs.map (Visit.call 0)) := by
  intro refs
  induction refs with
  | nil => intro hd; exact List.Sublist.slnil
  | cons obj rest ih =>
    intro hd
    simp only [references_visits, List.map_cons]
    split
    · exact List.Sublist.cons₂ _ (ih _)
    · exact List.Sublist.cons _ (ih _)

theorem always_offered_after (h : MemoryHeader) (ha : h.always_offered) :
    h.table_offer = true ∧ h.after_table_offer = h := by
  obtain ⟨href, hobj, hrest⟩ := ha
  rcases hrest with hcnt | ⟨hh, hfin, hweak⟩
  · exact ⟨by simp [MemoryHeader.table_offer, href, hobj, hcnt],
      by simp [MemoryHeader.after_table_offer, hcnt]⟩
  · refine ⟨by simp [MemoryHeader.table_offer, href, hobj, hh, hfin, hweak], ?_⟩
    simp only [MemoryHeader.after_table_offer]
    split
    · rfl
    · exact unset_accesses_of_no_handle h hh

theorem references_visits_all :
    ∀ (refs : List Ptr) (hd : Ptr → MemoryHeader),
      (∀ p ∈ refs, (hd p).always_offered) →
      references_visits refs hd = refs.map (Visit.call 0) := by
  intro refs
  induction refs with
  | nil => intro hd _; rfl
  | cons obj rest ih =>
    intro hd hall
    obtain ⟨hoff, hafter⟩ := always_offered_after (hd obj) (hall obj (List.mem_cons_self _ _))
    simp only [references_visits, hoff, hafter, if_true, Function.update_eq_self, List.map_cons]
    rw [ih hd (fun p hp => hall p (List.mem_cons_of_mem _ hp))]

/-- C6. The steps of one run of `collect_roots`, in order, are exactly: the global
roots in iteration order; then for each thread in thread-list order its root
stack, its variable root buffers in link order (slots in index order), its root
buffers (slots in index order) and its `gc_scan` hook; and only then the
handle-table entries in table order, with a null owner, namely those entries
the offering policy of the loop selects (`references_visits`). The handle-table
steps are a subsequence of the table, and they are the whole table when the
policy holds for every entry without regard to access counters. -/
theorem collect_roots_visits_in_order {σ : Type} (f : Callback σ) (g : ScanHook σ)
    (w : Heap) (s : σ) :
    (collect_roots_log f g w s).map Event.visit
        = root_visits w ++ references_visits w.references w.headers
      ∧ List.Sublist (references_visits w.references w.headers)
          (w.references.map (Visit.call 0))
      ∧ ((∀ p ∈ w.references, (w.headers p).always_offered) →
          (collect_roots_log f g w s).map Event.visit
            = root_visits w ++ w.references.map (Visit.call 0)) := by
  have hlog : (collect_roots_log f g w s).map Event.visit
      = root_visits w ++ references_visits w.references w.headers := by
    rw [collect_roots_log_eq, List.map_append, root_walk_log_visits]
    simp only [references_log]
    rw [references_log_visits]
  refine ⟨hlog, references_visits_sublist _ _, ?_⟩
  intro hall
  rw [hlog, references_visits_all _ _ hall]

/-- C6, witness: the heap with the object 5 in every root structure of a VM
thread and in the handle table; the run ends with the call on the one entry of
the table. -/
theorem collect_roots_visits_in_order_witness :
    (collect_roots_log move_to_nine no_scan small_heap ()).map Event.visit
      = root_visits small_heap ++ small_heap.references.map (Visit.call 0) :=
  (collect_roots_visits_in_order move_to_nine no_scan small_heap ()).2.2
    (by
      intro p hp
      have h5 : p = 5 := by simpa [small_heap] using hp
      subst h5
      exact ⟨rfl, rfl, Or.inr ⟨rfl, rfl, rfl⟩⟩)

/-- C2, the code at the failing input. The handle table holds the object 5;
the handle-table loop offers it, the callback answers with the new address 9,
and the table still holds 5 afterwards: the answer is dropped at the
`TODO: MemoryHeader set new address` places. -/
theorem handle_table_entry_keeps_stale_address :
    (handle_heap object_header).references = [5]
      ∧ collect_roots_log move_to_nine no_scan (handle_heap object_header) ()
          = [Event.call 0 5 9]
      ∧ (collect_roots move_to_nine no_scan (handle_heap object_header) ()).1.references
          = [5] := by
  decide

/-- C3, as the code has it. A handle-table entry that is an object reference
with reference count zero and a memory handle whose access counter is nonzero
is offered to the callback by the handle-table loop, and its access counter is
zero after `collect_roots`, whatever the callback returns. -/
theorem collect_roots_resets_accessed_handle {σ : Type} (f : Callback σ) (g : ScanHook σ)
    (w : Heap) (s : σ) (p : Ptr) (m : MemoryHandle)
    (hp : p ∈ w.references) (href : (w.headers p).reference_p = true)
    (hobj : (w.headers p).object_p = true) (hcnt : (w.headers p).referenced = 0)
    (hh : (w.headers p).handle = some m) (hacc : 0 < m.accesses) :
    (∃ r, Event.call 0 p r ∈ (collect_roots_log f g w s).drop (root_visits w).length)
      ∧ ((collect_roots f g w s).1.headers p).handle = some { accesses := 0 } := by
  rw [collect_roots_log_drop, collect_roots_headers]
  exact references_loop_resets f w.references w.headers (state_before_references f g w s)
    p m hp href hobj hcnt hh hacc

/-- C3, witness: the object 5 with reference count zero and a handle read
three times, under a callback that moves it. -/
theorem collect_roots_resets_accessed_handle_witness :
    (∃ r, Event.call 0 5 r
        ∈ (collect_roots_log move_to_nine no_scan (handle_heap accessed_header) ()).drop
            (root_visits (handle_heap accessed_header)).length)
      ∧ ((collect_roots move_to_nine no_scan (handle_heap accessed_header) ()).1.headers 5).handle
          = some { accesses := 0 } :=
  collect_roots_resets_accessed_handle move_to_nine no_scan (handle_heap accessed_header) ()
    5 { accesses := 3 } (by decide) (by decide) (by decide) (by decide) (by decide) (by decide)

/-- C3, counterexample. The object 5 has reference count one and a handle
whose access counter is 3: the loop offers it (first branch of the chain) and
the counter still reads 3 after `collect_roots`. -/
theorem referenced_handle_keeps_accesses :
    (referenced_accessed_header.handle = some { accesses := 3 })
      ∧ collect_roots_log never_moves no_scan (handle_heap referenced_accessed_header) ()
          = [Event.call 0 5 0]
      ∧ ((collect_roots never_moves no_scan
            (handle_heap referenced_accessed_header) ()).1.headers 5).handle
          = some { accesses := 3 } := by
  decide

/-- C4, as the code has it. Every step of the handle-table loop is a call on
an entry of the table that is an object reference and whose reference count is
nonzero, or that carries a memory handle whose access counter is nonzero, or
that carries no handle and is neither a finalizer nor a weak reference. So an
entry flagged finalizer or weak reference whose reference count is zero and
whose access counter is zero (or that has no handle) is never offered. -/
theorem collect_roots_offers_only_offerable {σ : Type} (f : Callback σ) (g : ScanHook σ)
    (w : Heap) (s : σ) :
    (∀ e ∈ (collect_roots_log f g w s).drop (root_visits w).length,
        ∃ p r, e = Event.call 0 p r ∧ p ∈ w.references ∧ (w.headers p).reference_p = true
          ∧ (w.headers p).object_p = true ∧ (w.headers p).offerable)
      ∧ (∀ p, (w.headers p).finalizer_p = true ∨ (w.headers p).weakref_p = true →
          (w.headers p).referenced = 0 →
          (∀ m, (w.headers p).handle = some m → m.accesses = 0) →
          ∀ r, Event.call 0 p r ∉ (collect_roots_log f g w s).drop (root_visits w).length) := by
  have hall : ∀ e ∈ (collect_roots_log f g w s).drop (root_visits w).length,
      ∃ p r, e = Event.call 0 p r ∧ p ∈ w.references ∧ (w.headers p).reference_p = true
        ∧ (w.headers p).object_p = true ∧ (w.headers p).offerable := by
    intro e he
    rw [collect_roots_log_drop] at he
    exact references_log_offerable f w.references w.headers
      (state_before_references f g w s) e he
  refine ⟨hall, ?_⟩
  intro p hflag hcnt hacc r hmem
  obtain ⟨q, r2, heq, _, _, _, hoff⟩ := hall _ hmem
  have hq : p = q := by injection heq
  subst hq
  rcases hoff with h | ⟨m, hm, hpos⟩ | ⟨_, hfin, hweak⟩
  · omega
  · have := hacc m hm
    omega
  · rcases hflag with h | h
    · rw [hfin] at h; exact Bool.noConfusion h
    · rw [hweak] at h; exact Bool.noConfusion h

/-- C4, witness: the one call of the handle-table loop on the plain object 5
meets the condition, and the finalizer 5 with reference count zero and no
handle is not offered. -/
theorem collect_roots_offers_only_offerable_witness :
    (∃ p r, Event.call 0 5 9 = Event.call 0 p r ∧ p ∈ (handle_heap object_header).references
        ∧ ((handle_heap object_header).headers p).reference_p = true
        ∧ ((handle_heap object_header).headers p).object_p = true
        ∧ ((handle_heap object_header).headers p).offerable)
      ∧ Event.call 0 5 9
          ∉ (collect_roots_log move_to_nine no_scan (handle_heap finalizer_header) ()).drop
              (root_visits (handle_heap finalizer_header)).length :=
  ⟨(collect_roots_offers_only_offerable move_to_nine no_scan (handle_heap object_header) ()).1
      (Event.call 0 5 9) (by decide),
    (collect_roots_offers_only_offerable move_to_nine no_scan (handle_heap finalizer_header)
      ()).2 5 (by decide) (by decide) (by decide) 9⟩

/-- C4, counterexample. The object 5 is flagged finalizer, carries no handle
and has reference count one: the loop offers it to the callback. -/
theorem referenced_finalizer_is_offered :
    referenced_finalizer_header.finalizer_p = true
      ∧ referenced_finalizer_header.handle = none
      ∧ collect_roots_log never_moves no_scan (handle_heap referenced_finalizer_header) ()
          = [Event.call 0 5 0] := by
  decide

/-- X1. `collect_roots` writes nothing to the handle table and changes no
header apart from resetting access counters: the table holds the same entries
afterwards, and every header is as before or as before with the access counter
of its handle reset. -/
theorem collect_roots_keeps_handle_table {σ : Type} (f : Callback σ) (g : ScanHook σ)
    (w : Heap) (s : σ) :
    (collect_roots f g w s).1.references = w.references
      ∧ ∀ p, (collect_roots f g w s).1.headers p = w.headers p
          ∨ (collect_roots f g w s).1.headers p = (w.headers p).unset_accesses :=
  ⟨rfl, fun p => references_loop_headers f w.references w.headers
    (state_before_references f g w s) p⟩

end memory
namespace memory

/-! ## Statements about collect_finish and the handle-table loop -/

theorem collect_finish_metrics {σ : Type} (c : Collaborators σ) (s : σ) (metrics : GCMetrics) :
    (collect_finish c s metrics).2
      = { immix_count := metrics.immix_count + 1, large_count := metrics.large_count + 1 } :=
  rfl

theorem finish_cycles_metrics {σ : Type} (c : Collaborators σ) :
    ∀ (n : Nat) (s : σ) (metrics : GCMetrics),
      (finish_cycles c n s metrics).2
        = { immix_count := metrics.immix_count + n, large_count := metrics.large_count + n } := by
  intro n
  induction n with
  | zero => intro s metrics; rfl
  | succ n ih =>
    intro s metrics
    simp only [finish_cycles]
    rw [ih, collect_finish_metrics]
    simp only [GCMetrics.mk.injEq]
    omega

/-- C16. One call of `collect_finish` leaves `immix_count` one higher and
`large_count` one higher, whatever the collaborators do to their own state; so
after the finishing steps of `n` cycles each counter has grown by exactly `n`. -/
theorem collect_finish_counts_one_cycle {σ : Type} (c : Collaborators σ) (s : σ)
    (metrics : GCMetrics) (n : Nat) :
    (collect_finish c s metrics).2.immix_count = metrics.immix_count + 1
      ∧ (collect_finish c s metrics).2.large_count = metrics.large_count + 1
      ∧ (finish_cycles c n s metrics).2.immix_count = metrics.immix_count + n
      ∧ (finish_cycles c n s metrics).2.large_count = metrics.large_count + n := by
  refine ⟨rfl, rfl, ?_, ?_⟩
  · rw [finish_cycles_metrics]
  · rw [finish_cycles_metrics]

/-- Logging changes nothing: the logged `collect_finish` computes the state and
the metrics of the plain one. -/
theorem collect_finish_logged {σ : Type} (c : Collaborators σ) (s : σ) (metrics : GCMetrics) :
    (collect_finish (logged_collaborators c) (s, []) metrics).1.1 = (collect_finish c s metrics).1
      ∧ (collect_finish (logged_collaborators c) (s, []) metrics).2
          = (collect_finish c s metrics).2 :=
  ⟨rfl, rfl⟩

/-- C17, as the code has it. One call of `collect_finish` calls its collaborators
once each, in this order: `immix_->collect_finish` (the move bookkeeping of the
young-generation collector), `code_manager_.sweep` (the code heap),
`immix_->sweep` (again the young-generation collector), `mark_sweep_->after_marked`
(the cleanup of the mark-sweep collector after marking), `symbols.sweep` (the
symbol table, after the sweeps of objects), `rotate_mark`; every one of them
still reads the metrics as they were on entry, and only then are both counters
raised. -/
theorem collect_finish_steps_in_order {σ : Type} (c : Collaborators σ) (s : σ)
    (metrics : GCMetrics) :
    collect_finish_log c s metrics
        = [{ receiver := Receiver.immix, method := Method.collect_finish, metrics := metrics },
           { receiver := Receiver.code_manager, method := Method.sweep, metrics := metrics },
           { receiver := Receiver.immix, method := Method.sweep, metrics := metrics },
           { receiver := Receiver.mark_sweep, method := Method.after_marked, metrics := metrics },
           { receiver := Receiver.symbols, method := Method.sweep, metrics := metrics },
           { receiver := Receiver.memory, method := Method.rotate_mark, metrics := metrics }]
      ∧ (collect_finish c s metrics).2
          = { immix_count := metrics.immix_count + 1, large_count := metrics.large_count + 1 } :=
  ⟨rfl, rfl⟩

/-- C17, counterexample. In one call of `collect_finish` the third step is the
sweep of the immix collector; no step is a sweep of the mark-sweep collector. -/
theorem collect_finish_never_sweeps_mark_sweep :
    (collect_finish_log idle_collaborators () { immix_count := 0, large_count := 0 }).map
        (fun step => (step.receiver, step.method))
      = [(Receiver.immix, Method.collect_finish), (Receiver.code_manager, Method.sweep),
         (Receiver.immix, Method.sweep), (Receiver.mark_sweep, Method.after_marked),
         (Receiver.symbols, Method.sweep), (Receiver.memory, Method.rotate_mark)]
      ∧ (Receiver.mark_sweep, Method.sweep)
          ∉ (collect_finish_log idle_collaborators ()
              { immix_count := 0, large_count := 0 }).map
                (fun step => (step.receiver, step.method)) := by
  decide

/-- C19. In one run of `collect_roots` the calls of the handle-table loop, read
in order, are a subsequence of the table: the loop calls the callback at most
once for each entry, whatever the header of the entry says; no object is
offered more often than it occurs in the table; and every call is on an entry
that is a reference (`reference_p`) and an object (`object_p`), so an entry that
is no reference, or is data and no object, is never offered. -/
theorem handle_table_offers_each_entry_at_most_once {σ : Type} (f : Callback σ)
    (g : ScanHook σ) (w : Heap) (s : σ) :
    List.Sublist (((collect_roots_log f g w s).drop (root_visits w).length).map Event.visit)
        (w.references.map (Visit.call 0))
      ∧ (∀ p, (((collect_roots_log f g w s).drop (root_visits w).length).map Event.visit).count
            (Visit.call 0 p) ≤ w.references.count p)
      ∧ (∀ e ∈ (collect_roots_log f g w s).drop (root_visits w).length,
          ∃ p r, e = Event.call 0 p r ∧ (w.headers p).reference_p = true
            ∧ (w.headers p).object_p = true) := by
  have hsub : List.Sublist
      (((collect_roots_log f g w s).drop (root_visits w).length).map Event.visit)
      (w.references.map (Visit.call 0)) := by
    rw [collect_roots_log_drop]
    exact references_log_sublist f w.references w.headers (state_before_references f g w s)
  refine ⟨hsub, ?_, ?_⟩
  · intro p
    have h1 := hsub.count_le (Visit.call 0 p)
    have h2 : (w.references.map (Visit.call 0)).count (Visit.call 0 p) = w.references.count p :=
      List.count_map_of_injective _ _ (fun a b h => by injection h) p
    omega
  · intro e he
    rw [collect_roots_log_drop] at he
    obtain ⟨p, r, h1, _, h3, h4, _⟩ := references_log_offerable f w.references w.headers
      (state_before_references f g w s) e he
    exact ⟨p, r, h1, h3, h4⟩

end memory

/-! ## Statements about call units -/

theorem execute_test_executor {σ : Type} (rt : Runtime σ) (k : Kind) (v m e n : Ptr) (w : Int)
    (cond c_then c_else : CallUnit) (s : σ) (exec mod : Ptr) (args : Arguments) :
    CallUnit.execute rt (CallUnit.object k v m e n w cond c_then c_else Executor.test_executor)
        s exec mod args
      = CallUnit.test_executor rt
          (CallUnit.object k v m e n w cond c_then c_else Executor.test_executor)
          s exec mod args := by
  simp only [CallUnit.execute, CallUnit.test_executor]

/-- C7. When `execute` of the condition sub-unit returns the failure signal (a
null result), `test_executor` returns exactly what the condition left behind:
the same null result, the same machine state, the same argument set. This
holds whatever the then-unit and the else-unit are (even for branches whose
execution would fault or count), so neither branch is executed. -/
theorem test_executor_returns_condition_failure {σ : Type} (rt : Runtime σ) (k : Kind)
    (v m e n : Ptr) (w : Int) (cond c_then c_else : CallUnit) (x : Executor) (s : σ)
    (exec mod : Ptr) (args : Arguments) (r : Result σ)
    (hcond : CallUnit.execute rt cond s exec mod args = some r) (hfail : r.ret = 0) :
    CallUnit.test_executor rt (CallUnit.object k v m e n w cond c_then c_else x) s exec mod args
      = some r := by
  simp [CallUnit.test_executor, hcond, hfail]

/-- C7, witness: the condition is the constant null and both branches count
their calls; the counter stays at zero. -/
theorem test_executor_returns_condition_failure_witness :
    CallUnit.test_executor counting_runtime failing_test_unit 0 1 2 two_arguments
      = some { ret := 0, state := 0, args := two_arguments } :=
  test_executor_returns_condition_failure counting_runtime Kind.eTest 0 0 0 0 0
    (CallUnit.create_constant_value fresh_unit 0)
    (CallUnit.create_for_method fresh_unit 40 50 60)
    (CallUnit.create_for_method fresh_unit 40 51 61)
    Executor.test_executor 0 1 2 two_arguments
    { ret := 0, state := 0, args := two_arguments } (by decide) (by decide)

/-- C8. When `execute` of the condition sub-unit returns a non-null result `c`,
`test_executor` is one call of `execute` of one branch unit: the then-unit
when `c` is truthy, the else-unit when it is falsy. The branch receives the
`exec` and `mod` of the caller and the argument set of the caller (passed by
reference, so as the condition left it), and what the branch returns is what
`test_executor` returns. -/
theorem test_executor_runs_one_branch {σ : Type} (rt : Runtime σ) (k : Kind)
    (v m e n : Ptr) (w : Int) (cond c_then c_else : CallUnit) (x : Executor) (s : σ)
    (exec mod : Ptr) (args : Arguments) (c : Result σ)
    (hcond : CallUnit.execute rt cond s exec mod args = some c) (hok : c.ret ≠ 0) :
    CallUnit.test_executor rt (CallUnit.object k v m e n w cond c_then c_else x) s exec mod args
      = CallUnit.execute rt (if rt.CBOOL c.ret then c_then else c_else) c.state exec mod
          c.args := by
  simp only [CallUnit.test_executor, hcond, hok, if_false]
  split <;> rfl

/-- C8, witness: the condition is the constant `cTrue`, so the then-unit (a
method unit) runs once: the counter reads one and the name slot holds the
name of that unit. -/
theorem test_executor_runs_one_branch_witness :
    CallUnit.test_executor counting_runtime true_test_unit 0 1 2 two_arguments
      = CallUnit.execute counting_runtime
          (if counting_runtime.CBOOL 18 then CallUnit.create_for_method fresh_unit 40 50 60
            else CallUnit.create_constant_value fresh_unit 77) 0 1 2 two_arguments :=
  test_executor_runs_one_branch counting_runtime Kind.eTest 0 0 0 0 0
    (CallUnit.create_constant_value fresh_unit 18)
    (CallUnit.create_for_method fresh_unit 40 50 60)
    (CallUnit.create_constant_value fresh_unit 77)
    Executor.test_executor 0 1 2 two_arguments
    { ret := 18, state := 0, args := two_arguments } (by decide) (by decide)

/-- C9. For a unit with argument index `i` and an argument set with receiver
`recv` and `total` arguments, `kind_of_executor` changes neither the machine
state nor the argument set and returns: `cFalse` when `i >= total`; the test
of the receiver when `i = -1`; the test of `arguments[i]` when
`0 <= i < total`. The test of a subject is `cFalse` when the value of the unit
is not a module, and otherwise the boolean of `kind_of_p` of the subject
against that module. -/
theorem kind_of_executor_selects_subject {σ : Type} (rt : Runtime σ) (k : Kind)
    (v m e n : Ptr) (i : Int) (cond c_then c_else : CallUnit) (x : Executor) (s : σ)
    (exec mod : Ptr) (args : Arguments) :
    ((args.total : Int) ≤ i →
        CallUnit.kind_of_executor rt (CallUnit.object k v m e n i cond c_then c_else x)
            s exec mod args
          = some { ret := rt.cFalse, state := s, args := args })
      ∧ (i = -1 →
        CallUnit.kind_of_executor rt (CallUnit.object k v m e n i cond c_then c_else x)
            s exec mod args
          = some { ret := CallUnit.kind_of_test rt v args.recv s, state := s, args := args })
      ∧ (0 ≤ i → i < (args.total : Int) →
        ∃ obj, args.arguments[i.toNat]? = some obj
          ∧ CallUnit.kind_of_executor rt (CallUnit.object k v m e n i cond c_then c_else x)
                s exec mod args
              = some { ret := CallUnit.kind_of_test rt v obj s, state := s, args := args })
      ∧ (∀ obj, rt.try_as_Module v = 0 → CallUnit.kind_of_test rt v obj s = rt.cFalse)
      ∧ (∀ obj, rt.try_as_Module v ≠ 0 →
          CallUnit.kind_of_test rt v obj s
            = rt.RBOOL (rt.kind_of_p s obj (rt.try_as_Module v))) := by
  refine ⟨?_, ?_, ?_, ?_, ?_⟩
  · intro h
    have h1 : i ≠ -1 := by omega
    have h2 : ¬ i < (args.total : Int) := by omega
    simp [CallUnit.kind_of_executor, h1, h2]
  · intro h
    simp [CallUnit.kind_of_executor, h]
  · intro h0 hn
    have h1 : i ≠ -1 := by omega
    have h2 : ¬ i < 0 := by omega
    have hlt : i.toNat < args.arguments.length := by
      have : (args.total : Int) = (args.arguments.length : Int) := rfl
      omega
    refine ⟨args.arguments[i.toNat], List.getElem?_eq_getElem hlt, ?_⟩
    simp [CallUnit.kind_of_executor, h1, hn, Arguments.get_argument, h2,
      List.getElem?_eq_getElem hlt]
  · intro obj h
    simp [CallUnit.kind_of_test, h]
  · intro obj h
    simp [CallUnit.kind_of_test, h]

/-- C9, witness: index 1 of two arguments selects the second argument, an
instance of the module of the unit, so the test returns `cTrue`. -/
theorem kind_of_executor_selects_subject_witness :
    ∃ obj, two_arguments.arguments[(1 : Int).toNat]? = some obj
      ∧ CallUnit.kind_of_executor counting_runtime
            (CallUnit.object Kind.eKindOf 40 0 0 0 1 CallUnit.null CallUnit.null CallUnit.null
              Executor.kind_of_executor) 0 1 2 two_arguments
          = some { ret := CallUnit.kind_of_test counting_runtime 40 obj 0, state := 0,
                   args := two_arguments } :=
  (kind_of_executor_selects_subject counting_runtime Kind.eKindOf 40 0 0 0 1 CallUnit.null
    CallUnit.null CallUnit.null Executor.kind_of_executor 0 1 2 two_arguments).2.2.1
    (by decide) (by decide)

/-- C10, the code at the failing input. `create_kind_of` stores the index -2;
with two arguments the index is neither the sentinel nor in range, the guard
`which < (int)args.total()` lets it through, and `kind_of_executor` reads
`arguments_[-2]`, outside the array, instead of returning `cFalse`. -/
theorem kind_of_executor_reads_outside_for_negative_index :
    CallUnit.create_kind_of fresh_unit 40 (-2)
        = CallUnit.object Kind.eKindOf 40 0 0 0 (-2) CallUnit.null CallUnit.null CallUnit.null
            Executor.kind_of_executor
      ∧ two_arguments.get_argument (-2) = none
      ∧ CallUnit.kind_of_executor counting_runtime (CallUnit.create_kind_of fresh_unit 40 (-2))
          0 1 2 two_arguments = none
      ∧ CallUnit.kind_of_executor counting_runtime (CallUnit.create_kind_of fresh_unit 40 (-2))
          0 1 2 two_arguments
        ≠ some { ret := counting_runtime.cFalse, state := 0, args := two_arguments } := by
  decide

/-- C11. For every bound-method unit (a unit that owns an executable) and every
`exec`, `mod` and argument set of the caller, `method_executor` is one call of
`Executable::execute` of the owned executable, with the owned executable and
the owned module as arguments and with the argument set after `set_name` put
the name of the unit into its name slot; what that call returns (result, machine
state, argument set, the null failure result included, or a fault) is what
`method_executor` returns. Neither `exec` nor `mod` of the caller is passed on. -/
theorem method_executor_forwards_to_owned_executable {σ : Type} (rt : Runtime σ) (k : Kind)
    (v m e n : Ptr) (w : Int) (cond c_then c_else : CallUnit) (x : Executor) (s : σ)
    (exec mod : Ptr) (args : Arguments) (he : e ≠ 0) :
    CallUnit.method_executor rt (CallUnit.object k v m e n w cond c_then c_else x) s exec mod args
        = rt.execute e s e m (args.set_name n)
      ∧ (args.set_name n).name = n
      ∧ (args.set_name n).recv = args.recv
      ∧ (args.set_name n).arguments = args.arguments := by
  refine ⟨?_, rfl, rfl, rfl⟩
  simp [CallUnit.method_executor, he]

/-- C11, witness: the method unit with module 40, executable 50 and name 60 under
the counting runtime: the callee ran once and saw the name 60. -/
theorem method_executor_forwards_to_owned_executable_witness :
    CallUnit.method_executor counting_runtime
        (CallUnit.object Kind.eForMethod 0 40 50 60 0 CallUnit.null CallUnit.null CallUnit.null
          Executor.method_executor) 0 1 2 two_arguments
        = counting_runtime.execute 50 0 50 40 (two_arguments.set_name 60)
      ∧ (two_arguments.set_name 60).name = 60
      ∧ (two_arguments.set_name 60).recv = two_arguments.recv
      ∧ (two_arguments.set_name 60).arguments = two_arguments.arguments :=
  method_executor_forwards_to_owned_executable counting_runtime Kind.eForMethod 0 40 50 60 0
    CallUnit.null CallUnit.null CallUnit.null Executor.method_executor 0 1 2 two_arguments
    (by decide)

/-- C13. For every value `val` and every object `new_object<CallUnit>` hands out,
the unit `create_constant_value` builds has kind `eConstantValue`, owns `val`, has
the constant-value executor installed, and `execute` of it returns `val` for every
`exec`, `mod` and argument set, leaving machine state and argument set as they
were. -/
theorem create_constant_value_then_execute {σ : Type} (rt : Runtime σ) (k : Kind)
    (v m e n : Ptr) (w : Int) (cond c_then c_else : CallUnit) (x : Executor) (val : Ptr)
    (s : σ) (exec mod : Ptr) (args : Arguments) :
    CallUnit.create_constant_value (CallUnit.object k v m e n w cond c_then c_else x) val
        = CallUnit.object Kind.eConstantValue val m e n w cond c_then c_else
            Executor.constant_value_executor
      ∧ CallUnit.execute rt
          (CallUnit.create_constant_value (CallUnit.object k v m e n w cond c_then c_else x) val)
          s exec mod args
        = some { ret := val, state := s, args := args } := by
  exact ⟨rfl, rfl⟩

theorem execute_constant_value {σ : Type} (rt : Runtime σ) (k : Kind) (v m e n : Ptr) (w : Int)
    (c t el : CallUnit) (s : σ) (exec mod : Ptr) (args : Arguments) :
    CallUnit.execute rt (CallUnit.object k v m e n w c t el Executor.constant_value_executor)
        s exec mod args
      = some { ret := v, state := s, args := args } := rfl

theorem execute_kind_of {σ : Type} (rt : Runtime σ) (k : Kind) (v m e n : Ptr) (w : Int)
    (c t el : CallUnit) (s : σ) (exec mod : Ptr) (args : Arguments) :
    CallUnit.execute rt (CallUnit.object k v m e n w c t el Executor.kind_of_executor)
        s exec mod args
      = CallUnit.kind_of_executor rt
          (CallUnit.object k v m e n w c t el Executor.kind_of_executor) s exec mod args := by
  simp only [CallUnit.execute]

theorem kind_of_executor_returns {σ : Type} (rt : Runtime σ) (k : Kind) (v m e n : Ptr) (w : Int)
    (c t el : CallUnit) (x : Executor) (s : σ) (exec mod : Ptr) (args : Arguments)
    (hw : -1 ≤ w) :
    ∃ r, CallUnit.kind_of_executor rt (CallUnit.object k v m e n w c t el x) s exec mod args
      = some r := by
  simp only [CallUnit.kind_of_executor]
  by_cases h1 : w = -1
  · simp [h1]
  · by_cases h2 : w < (args.total : Int)
    · have h3 : ¬ w < 0 := by omega
      have hlt : w.toNat < args.arguments.length := by
        have : (args.total : Int) = (args.arguments.length : Int) := rfl
        omega
      simp [h1, h2, Arguments.get_argument, h3, List.getElem?_eq_getElem hlt]
    · simp [h1, h2]

theorem indexed_tree_evaluates {σ : Type} (rt : Runtime σ) (unit : CallUnit)
    (h : IndexedTestTree unit) :
    ∀ (s : σ) (exec mod : Ptr) (args : Arguments),
      ∃ path r, CallUnit.execute rt unit s exec mod args = some r
        ∧ Evaluates rt unit s exec mod args path r := by
  induction h with
  | constant_value v m e n w c t el =>
    intro s exec mod args
    exact ⟨_, _, execute_constant_value rt _ v m e n w c t el s exec mod args,
      Evaluates.leaf_constant_value _ v m e n w c t el s exec mod args⟩
  | kind_of v m e n w c t el hw =>
    intro s exec mod args
    obtain ⟨r, hr⟩ := kind_of_executor_returns rt Kind.eKindOf v m e n w c t el
      Executor.kind_of_executor s exec mod args hw
    refine ⟨_, r, ?_, Evaluates.leaf_kind_of _ v m e n w c t el s exec mod args r hr⟩
    rw [execute_kind_of, hr]
  | test v m e n w c t el _ _ _ ihc iht ihel =>
    intro s exec mod args
    obtain ⟨p, rc, hc, hpc⟩ := ihc s exec mod args
    by_cases h0 : rc.ret = 0
    · refine ⟨_, rc, ?_, Evaluates.condition_failed _ v m e n w c t el s exec mod args p rc
        hpc h0⟩
      simp [CallUnit.execute, hc, h0]
    · by_cases hb : rt.CBOOL rc.ret = true
      · obtain ⟨q, r, ht, hqt⟩ := iht rc.state exec mod rc.args
        refine ⟨_, r, ?_, Evaluates.then_branch _ v m e n w c t el s exec mod args p q rc r
          hpc h0 hb hqt⟩
        simp [CallUnit.execute, hc, h0, hb, ht]
      · have hb2 : rt.CBOOL rc.ret = false := by simpa using hb
        obtain ⟨q, r, hel, hqel⟩ := ihel rc.state exec mod rc.args
        refine ⟨_, r, ?_, Evaluates.else_branch _ v m e n w c t el s exec mod args p q rc r
          hpc h0 hb2 hqel⟩
        simp [CallUnit.execute, hc, h0, hb2, hel]

/-- An evaluation along a path determines the result of `execute`. -/
theorem evaluates_is_execute {σ : Type} (rt : Runtime σ) {unit : CallUnit} {s : σ}
    {exec mod : Ptr} {args : Arguments} {path : List CallUnit} {r : Result σ}
    (h : Evaluates rt unit s exec mod args path r) :
    CallUnit.execute rt unit s exec mod args = some r := by
  induction h with
  | leaf_constant_value k v m e n w c t el s exec mod args =>
    exact execute_constant_value rt k v m e n w c t el s exec mod args
  | leaf_kind_of k v m e n w c t el s exec mod args r hr =>
    rw [execute_kind_of, hr]
  | condition_failed k v m e n w cond t el s exec mod args p c _ h0 ih =>
    simp [CallUnit.execute, ih, h0]
  | then_branch k v m e n w cond t el s exec mod args p q c r _ h0 hb _ ihc iht =>
    simp [CallUnit.execute, ihc, h0, hb, iht]
  | else_branch k v m e n w cond t el s exec mod args p q c r _ h0 hb _ ihc ihel =>
    simp [CallUnit.execute, ihc, h0, hb, ihel]

theorem negative_index_tree_is_test_tree : TestTree negative_index_tree :=
  TestTree.test 0 0 0 0 0 _ _ _ (TestTree.constant_value 18 0 0 0 0 _ _ _)
    (TestTree.kind_of 40 0 0 0 (-2) _ _ _) (TestTree.constant_value 77 0 0 0 0 _ _ _)

theorem indexed_tree_is_indexed : IndexedTestTree indexed_tree :=
  IndexedTestTree.test 0 0 0 0 0 _ _ _ (IndexedTestTree.constant_value 18 0 0 0 0 _ _ _)
    (IndexedTestTree.kind_of 40 0 0 0 1 _ _ _ (by decide))
    (IndexedTestTree.constant_value 77 0 0 0 0 _ _ _)

/-- C20, the code at the failing input. The tree is a test unit whose condition is
the constant `cTrue` and whose then-unit is a type-test leaf with the stored
index -2. With two arguments `execute` reaches that leaf, which reads
`arguments_[-2]` outside the argument array: the evaluation faults and returns
no result. -/
theorem execute_faults_at_negative_index_leaf :
    TestTree negative_index_tree
      ∧ CallUnit.execute counting_runtime negative_index_tree 0 1 2 two_arguments = none
      ∧ CallUnit.kind_of_executor counting_runtime (CallUnit.create_kind_of fresh_unit 40 (-2))
          0 1 2 two_arguments = none :=
  ⟨negative_index_tree_is_test_tree, by decide, by decide⟩

/-- X2. For every finite tree of call units whose inner nodes are test units and
whose leaves are constant-value units or type-test units that store the
sentinel -1 or a non-negative index, `execute` returns a result, and that
result is the one of the evaluation along one path: at each test node the
condition, then exactly one branch chosen by the truthiness of the result of the
condition, or no branch when the condition gave the failure result. -/
theorem execute_follows_one_path {σ : Type} (rt : Runtime σ) (unit : CallUnit)
    (s : σ) (exec mod : Ptr) (args : Arguments) (h : IndexedTestTree unit) :
    (∃ path r, CallUnit.execute rt unit s exec mod args = some r
        ∧ Evaluates rt unit s exec mod args path r)
      ∧ (∀ path r, Evaluates rt unit s exec mod args path r →
          CallUnit.execute rt unit s exec mod args = some r) :=
  ⟨indexed_tree_evaluates rt unit h s exec mod args, fun _ _ hev => evaluates_is_execute rt hev⟩

/-- X2, witness: the tree with the type-test leaf on argument 1. -/
theorem execute_follows_one_path_witness :
    (∃ path r, CallUnit.execute counting_runtime indexed_tree 0 1 2 two_arguments = some r
        ∧ Evaluates counting_runtime indexed_tree 0 1 2 two_arguments path r)
      ∧ (∀ path r, Evaluates counting_runtime indexed_tree 0 1 2 two_arguments path r →
          CallUnit.execute counting_runtime indexed_tree 0 1 2 two_arguments = some r) :=
  execute_follows_one_path counting_runtime indexed_tree 0 1 2 two_arguments
    indexed_tree_is_indexed

namespace interpreter

/-! ## Statements about the multi-value cast -/

/-- C14, as the code has it. The handler advances the instruction pointer by its
own width plus the width of the following exception instruction when the cast
succeeds (the exception instruction is skipped), and by its own width only when
the cast fails; with the instruction at offset 0, own width 4 and exception
width 2 the instruction pointer after a successful cast is 6. -/
theorem cast_multi_value_skips_exception_on_success {σ φ : Type} (ins : Instructions σ φ)
    (state : σ) (call_frame : CallFrame φ) :
    ((ins.cast_multi_value state call_frame.rest).ok = true →
        (cast_multi_value_frame ins state call_frame).ip
          = call_frame.ip + (ins.cast_multi_value_width + ins.run_exception_width))
      ∧ ((ins.cast_multi_value state call_frame.rest).ok = false →
        (cast_multi_value_frame ins state call_frame).ip
          = call_frame.ip + ins.cast_multi_value_width)
      ∧ (cast_multi_value_frame (scenario true) () scenario_frame).ip = 6 := by
  refine ⟨?_, ?_, by decide⟩
  · intro h
    simp [cast_multi_value_frame, h, CallFrame.next_ip]
  · intro h
    simp [cast_multi_value_frame, h, CallFrame.next_ip]

/-- C14, witness: both cases in the scenario. -/
theorem cast_multi_value_skips_exception_on_success_witness :
    (cast_multi_value_frame (scenario true) () scenario_frame).ip = 0 + (4 + 2)
      ∧ (cast_multi_value_frame (scenario false) () scenario_frame).ip = 0 + 4 :=
  ⟨(cast_multi_value_skips_exception_on_success (scenario true) () scenario_frame).1
      (by decide),
    (cast_multi_value_skips_exception_on_success (scenario false) () scenario_frame).2.1
      (by decide)⟩

/-- C14, counterexample. In the scenario the instruction pointer after a
successful cast is 6, not 4, and after a failed cast it is 4, not 6. -/
theorem cast_success_lands_behind_exception :
    (cast_multi_value_frame (scenario true) () scenario_frame).ip = 6
      ∧ (cast_multi_value_frame (scenario true) () scenario_frame).ip ≠ 4
      ∧ (cast_multi_value_frame (scenario false) () scenario_frame).ip = 4
      ∧ (cast_multi_value_frame (scenario false) () scenario_frame).ip ≠ 4 + 2 := by
  decide

/-- C15. When the cast fails, the instruction pointer advances by exactly the width
of the cast instruction, and the handler called next is the one the opcode
table stores at that offset, where the exception instruction follows; it is
called with the machine state and the frame the cast left. In the scenario the
next instruction pointer is 4, the handler called is the one stored at offset
4, and the exception instruction ends at offset 6. -/
theorem cast_multi_value_failure_runs_exception {σ φ : Type} (ins : Instructions σ φ)
    (state : σ) (call_frame : CallFrame φ) (opcodes : Int → Int)
    (hfail : (ins.cast_multi_value state call_frame.rest).ok = false) :
    (cast_multi_value_frame ins state call_frame).ip
        = call_frame.ip + ins.cast_multi_value_width
      ∧ (cast_multi_value_frame ins state call_frame).rest
        = (ins.cast_multi_value state call_frame.rest).rest
      ∧ cast_multi_value ins state call_frame opcodes
        = ins.call (opcodes (call_frame.ip + ins.cast_multi_value_width))
            (ins.cast_multi_value state call_frame.rest).state
            { ip := call_frame.ip + ins.cast_multi_value_width,
              rest := (ins.cast_multi_value state call_frame.rest).rest } opcodes := by
  have hframe : cast_multi_value_frame ins state call_frame
      = { ip := call_frame.ip + ins.cast_multi_value_width,
          rest := (ins.cast_multi_value state call_frame.rest).rest } := by
    simp [cast_multi_value_frame, hfail, CallFrame.next_ip]
  refine ⟨?_, ?_, ?_⟩
  · rw [hframe]
  · rw [hframe]
  · simp only [cast_multi_value, hframe]

/-- C15, witness: the scenario with a failing cast. The next instruction pointer
is 4, the handler called is the one stored at offset 4 (address 1004), and the
exception instruction, of width 2, ends at offset 6. -/
theorem cast_multi_value_failure_runs_exception_witness :
    ((cast_multi_value_frame (scenario false) () scenario_frame).ip = 0 + 4
        ∧ (cast_multi_value_frame (scenario false) () scenario_frame).rest = ()
        ∧ cast_multi_value (scenario false) () scenario_frame scenario_opcodes
          = (scenario false).call (scenario_opcodes (0 + 4)) () { ip := 0 + 4, rest := () }
              scenario_opcodes)
      ∧ cast_multi_value (scenario false) () scenario_frame scenario_opcodes = 1004
      ∧ (cast_multi_value_frame (scenario false) () scenario_frame).ip
          + (scenario false).run_exception_width = 6 :=
  ⟨cast_multi_value_failure_runs_exception (scenario false) () scenario_frame scenario_opcodes
      (by decide), by decide, by decide⟩

end interpreter


end rubinius
